import Mathlib

/-!
Verification of the Revenium middleware for Google (Go) against its
natural-language specification.  The Go sources are shallowly embedded:
strings that the Go code manipulates byte-wise are `List Nat` of byte
values, Go maps `map[string]interface{}` are association lists with
overwrite-on-insert semantics, `int32` arithmetic wraps explicitly, and
the streaming wrapper becomes a pure recursion over the list of chunks
produced by the underlying SDK stream.
-/

set_option maxHeartbeats 1000000
set_option maxRecDepth 8192

namespace Revenium

/-! ### Stop-reason mapping (stop_reason_mapper.go) -/

/-- Standardized Revenium stop reasons (the closed set from the source). -/
def stopReasonEnd : String := "END"

def stopReasonEndSequence : String := "END_SEQUENCE"

def stopReasonTimeout : String := "TIMEOUT"

def stopReasonTokenLimit : String := "TOKEN_LIMIT"

def stopReasonCostLimit : String := "COST_LIMIT"

def stopReasonCompletionLimit : String := "COMPLETION_LIMIT"

def stopReasonError : String := "ERROR"

def stopReasonCancelled : String := "CANCELLED"

/-- Body of the `switch normalizedReason` statement of `MapGoogleFinishReason`:
the Go switch over the upper-cased finish reason, written as the equivalent
chain of equality/membership tests in source order. -/
def mapNormalized (normalizedReason : String) (defaultReason : String) : String :=
  if normalizedReason = "STOP" then stopReasonEnd
  else if normalizedReason = "MAX_TOKENS" then stopReasonTokenLimit
  else if normalizedReason ∈ ["SAFETY", "RECITATION", "BLOCKLIST", "PROHIBITED_CONTENT",
      "SPII", "MODEL_ARMOR", "IMAGE_SAFETY", "IMAGE_PROHIBITED_CONTENT",
      "IMAGE_RECITATION"] then stopReasonError
  else if normalizedReason ∈ ["MALFORMED_FUNCTION_CALL", "UNEXPECTED_TOOL_CALL",
      "NO_IMAGE"] then stopReasonError
  else if normalizedReason = "CANCELLED" ∨ normalizedReason = "CANCELED" then
    stopReasonCancelled
  else if normalizedReason ∈ ["FINISH_REASON_UNSPECIFIED", "OTHER", "IMAGE_OTHER"] then
    defaultReason
  else defaultReason

/-- Embeds `MapGoogleFinishReason` (stop_reason_mapper.go): empty input returns the
caller-supplied default, otherwise the finish reason is upper-cased and looked up in
the mapping table.  Total by construction (the Go code never panics). -/
def MapGoogleFinishReason (finishReason : String) (defaultReason : String) : String :=
  if finishReason = "" then defaultReason
  else mapNormalized finishReason.toUpper defaultReason

/-- Mapping table written from the specification's words (§4.2 / §8): natural
stop maps to END, max-length to TOKEN_LIMIT, every safety/policy/content-filter/
malformed-tool-call reason to ERROR, either spelling of cancellation to CANCELLED,
and unspecified/other, the empty string, or anything unrecognized to the
caller-supplied default.  Used only to compare against the source function. -/
def specStopReason (finishReason : String) (defaultReason : String) : String :=
  let u := finishReason.toUpper
  if u = "STOP" then "END"
  else if u = "MAX_TOKENS" then "TOKEN_LIMIT"
  else if u ∈ ["SAFETY", "RECITATION", "BLOCKLIST", "PROHIBITED_CONTENT", "SPII",
      "MODEL_ARMOR", "IMAGE_SAFETY", "IMAGE_PROHIBITED_CONTENT", "IMAGE_RECITATION",
      "MALFORMED_FUNCTION_CALL", "UNEXPECTED_TOOL_CALL", "NO_IMAGE"] then "ERROR"
  else if u = "CANCELLED" ∨ u = "CANCELED" then "CANCELLED"
  else defaultReason

/-! ### Provider detection (part_008, provider section) -/

/-- Configuration record (config.go `Config`). -/
structure Config where
  googleAPIKey : String
  projectID : String
  location : String
  reveniumAPIKey : String
  reveniumBaseURL : String
  vertexDisabled : Bool
  debug : Bool
  capturePrompts : Bool
deriving Repr, DecidableEq

/-- Provider tags (part_008). -/
inductive Provider where
  | googleAI
  | vertexAI
deriving Repr, DecidableEq

/-- Embeds `DetectProvider`: nil configuration and the Vertex-disable flag force
GOOGLE_AI; otherwise a non-empty cloud project id selects VERTEX_AI; otherwise
GOOGLE_AI.  A nil `*Config` is `none`. -/
def DetectProvider (cfg : Option Config) : Provider :=
  match cfg with
  | none => .googleAI
  | some c =>
    if c.vertexDisabled then .googleAI
    else if c.projectID ≠ "" then .vertexAI
    else .googleAI

/-! ### Shallow embedding of the consumed genai SDK types

Only the fields the middleware reads are modelled.  Text that the Go code
manipulates byte-wise (prompt capture, truncation) is a `List Nat` of UTF-8
byte values. -/

/-- Usage block of a response (`GenerateContentResponseUsageMetadata`); the Go
fields are `int32`, modelled as `Int` with wrapping made explicit at the one
place the code performs arithmetic on them. -/
structure UsageMetadata where
  promptTokenCount : Int
  candidatesTokenCount : Int
  totalTokenCount : Int
  cachedContentTokenCount : Int
  thoughtsTokenCount : Int
deriving Repr, DecidableEq

/-- Response candidate; the middleware reads only its finish reason. -/
structure Candidate where
  finishReason : String
deriving Repr, DecidableEq

/-- Inline binary blob carried by a message part. -/
structure Blob where
  mimeType : String
  data : List Nat
deriving Repr, DecidableEq

/-- Remote file reference carried by a message part. -/
structure FileData where
  mimeType : String
  fileURI : String
deriving Repr, DecidableEq

/-- Message part: optional text (bytes), optional inline blob, optional file
reference.  Nil pointers are `none`. -/
structure Part where
  text : List Nat
  inlineData : Option Blob
  fileData : Option FileData
deriving Repr, DecidableEq

/-- Message content: a role and a list of (possibly nil) parts. -/
structure Content where
  role : List Nat
  parts : List (Option Part)
deriving Repr, DecidableEq

/-- Response of a generate-content call: candidates (possibly nil entries) and
an optional usage block. -/
structure GenResponse where
  candidates : List (Option Candidate)
  usageMetadata : Option UsageMetadata
deriving Repr, DecidableEq

/-- Request configuration: the middleware reads only the system instruction and
the temperature.  The Go temperature is a `*float32`, modelled as an optional
rational. -/
structure GenConfig where
  systemInstruction : Option Content
  temperature : Option ℚ
deriving Repr, DecidableEq

/-- Embeds `ExtractFinishReason` (stop_reason_mapper.go): nil response or empty /
nil first candidate yield the empty string, otherwise the first candidate's
finish reason. -/
def ExtractFinishReason (response : Option GenResponse) : String :=
  match response with
  | none => ""
  | some r =>
    match r.candidates with
    | [] => ""
    | c0 :: _ =>
      match c0 with
      | none => ""
      | some c => c.finishReason

/-! ### Metering payload values and map semantics

A Go `map[string]interface{}` payload is an association list with
overwrite-on-assign semantics; scalar values are wrapped in `GoVal`. -/

/-- Scalar/nested values stored in a metering payload or in caller metadata. -/
inductive GoVal where
  | str (s : String)
  | int (n : Int)
  | bool (b : Bool)
  | num (q : ℚ)
  | time (t : Int)
deriving Repr, DecidableEq

/-- Assignment `m[k] = v` on a Go map modelled as an association list. -/
def mapSet : List (String × GoVal) → String → GoVal → List (String × GoVal)
  | [], k, v => [(k, v)]
  | (k', v') :: rest, k, v =>
    if k' = k then (k, v) :: rest else (k', v') :: mapSet rest k v

theorem lookup_mapSet_self (m : List (String × GoVal)) (k : String) (v : GoVal) :
    (mapSet m k v).lookup k = some v := by
  induction m with
  | nil => simp [mapSet, List.lookup]
  | cons hd tl ih =>
    obtain ⟨k', v'⟩ := hd
    by_cases h : k' = k
    · subst h
      simp [mapSet, List.lookup]
    · simp only [mapSet, if_neg h, List.lookup]
      have hne : (k == k') = false := beq_eq_false_iff_ne.mpr (Ne.symm h)
      rw [hne]
      exact ih

theorem lookup_mapSet_ne (m : List (String × GoVal)) (k k' : String) (v : GoVal)
    (h : k' ≠ k) : (mapSet m k v).lookup k' = m.lookup k' := by
  induction m with
  | nil =>
    simp only [mapSet, List.lookup]
    rw [beq_eq_false_iff_ne.mpr h]
  | cons hd tl ih =>
    obtain ⟨k0, v0⟩ := hd
    by_cases hk : k0 = k
    · subst hk
      simp only [mapSet, if_pos rfl, List.lookup]
      rw [beq_eq_false_iff_ne.mpr h]
    · simp only [mapSet, if_neg hk, List.lookup]
      by_cases hk' : k' = k0
      · rw [beq_iff_eq.mpr hk']
      · rw [beq_eq_false_iff_ne.mpr hk']
        exact ih

/-! ### Payload builder (part_004 `buildGoogleMeteringPayloadWithTiming`) -/

/-- Two's-complement wrap of an integer to `int32`, used to embed Go's
`usage.PromptTokenCount + usage.CandidatesTokenCount` (an `int32` addition). -/
def int32wrap (n : Int) : Int := (n + 2 ^ 31) % 2 ^ 32 - 2 ^ 31

/-- Modelled from the spec: the middleware identifier constant
(`GetMiddlewareSource`); its definition file is not part of the given sources,
and no claim depends on its value. -/
def middlewareSource : String := "revenium-middleware-google-go"

/-- Allow-listed caller-metadata keys copied into the payload, in the source
order of the `if ..., ok := metadata[...]` chain of
`buildGoogleMeteringPayloadWithTiming`. -/
def metaKeys : List String :=
  ["organizationId", "productId", "taskType", "agent", "subscriptionId",
   "traceId", "subscriber", "responseQualityScore", "taskId", "modelSource",
   "mediationLatency", "temperature", "transactionId", "traceType", "traceName",
   "environment", "region", "retryNumber", "credentialAlias",
   "parentTransactionId"]

/-- One `if v, ok := metadata[k]; ok { payload[k] = v }` step. -/
def copyMeta (metadata : List (String × GoVal)) (payload : List (String × GoVal))
    (k : String) : List (String × GoVal) :=
  match metadata.lookup k with
  | some v => mapSet payload k v
  | none => payload

/-- The whole metadata-copying block, folding `copyMeta` over the allow-list. -/
def applyMeta (metadata : List (String × GoVal)) (payload : List (String × GoVal)) :
    List (String × GoVal) :=
  metaKeys.foldl (copyMeta metadata) payload

/-- The literal payload map of `buildGoogleMeteringPayloadWithTiming`, in
source field order; the scalar arguments are the locals computed before it. -/
def basePayload (stopReason : String) (isStreamed : Bool)
    (inputTokens outputTokens thinkingTokens cachedTokens totalTokens : Int)
    (model genId : String) (requestTime completionStartTime responseTime : Int)
    (provider : String) : List (String × GoVal) :=
  [("stopReason", .str stopReason),
   ("costType", .str "AI"),
   ("isStreamed", .bool isStreamed),
   ("operationType", .str "CHAT"),
   ("inputTokenCount", .int inputTokens),
   ("outputTokenCount", .int outputTokens),
   ("reasoningTokenCount", .int thinkingTokens),
   ("cacheCreationTokenCount", .int 0),
   ("cacheReadTokenCount", .int cachedTokens),
   ("totalTokenCount", .int totalTokens),
   ("model", .str model),
   ("transactionId", .str genId),
   ("responseTime", .time responseTime),
   ("requestDuration", .int (responseTime - requestTime)),
   ("provider", .str provider),
   ("requestTime", .time requestTime),
   ("completionStartTime", .time completionStartTime),
   ("timeToFirstToken", .int (completionStartTime - requestTime)),
   ("middlewareSource", .str middlewareSource)]

/-- The `if err != nil { payload["errorReason"] = err.Error() }` step. -/
def errorReasonStep (err : Option String) (payload : List (String × GoVal)) :
    List (String × GoVal) :=
  match err with
  | some e => mapSet payload "errorReason" (.str e)
  | none => payload

/-- The `if config != nil && config.Temperature != nil` step setting
`payload["temperature"]`. -/
def temperatureStep (config : Option GenConfig) (payload : List (String × GoVal)) :
    List (String × GoVal) :=
  match config with
  | some c =>
    match c.temperature with
    | some t => mapSet payload "temperature" (.num t)
    | none => payload
  | none => payload

/-- The local `usage` of the builder: the response's usage block, if any. -/
def usageOf (resp : Option GenResponse) : Option UsageMetadata :=
  match resp with
  | some r => r.usageMetadata
  | none => none

/-- The local `inputTokens` of the builder. -/
def inputTokensOf (usage : Option UsageMetadata) : Int :=
  match usage with | some u => u.promptTokenCount | none => 0

/-- The local `outputTokens` of the builder. -/
def outputTokensOf (usage : Option UsageMetadata) : Int :=
  match usage with | some u => u.candidatesTokenCount | none => 0

/-- The local `totalTokens` of the builder: `TotalTokenCount` when non-zero,
else the `int32` sum `PromptTokenCount + CandidatesTokenCount` (Go `int32`
addition wraps, hence `int32wrap`). -/
def totalTokensOf (usage : Option UsageMetadata) : Int :=
  match usage with
  | some u =>
    if u.totalTokenCount = 0 then
      int32wrap (u.promptTokenCount + u.candidatesTokenCount)
    else u.totalTokenCount
  | none => 0

/-- The local `cachedTokens` of the builder. -/
def cachedTokensOf (usage : Option UsageMetadata) : Int :=
  match usage with | some u => u.cachedContentTokenCount | none => 0

/-- The local `thinkingTokens` of the builder. -/
def thinkingTokensOf (usage : Option UsageMetadata) : Int :=
  match usage with | some u => u.thoughtsTokenCount | none => 0

/-- Embeds `buildGoogleMeteringPayloadWithTiming`.  `genId` is the value
produced by the call to `generateRequestID()` at the `transactionId` field
(modelled as a parameter because the Go function draws it from the clock);
timestamps are abstract instants (`Int`), carried into the payload unprinted,
and durations are their differences as in the source.  `err` is the optional
error message. -/
def buildGoogleMeteringPayloadWithTiming (genId : String) (resp : Option GenResponse)
    (model : String) (metadata : List (String × GoVal)) (isStreamed : Bool)
    (requestTime completionStartTime responseTime : Int) (provider : String)
    (config : Option GenConfig) (err : Option String) : List (String × GoVal) :=
  let usage := usageOf resp
  let stopReason := MapGoogleFinishReason (ExtractFinishReason resp) stopReasonEnd
  let payload := basePayload stopReason isStreamed (inputTokensOf usage)
    (outputTokensOf usage) (thinkingTokensOf usage) (cachedTokensOf usage)
    (totalTokensOf usage) model genId requestTime completionStartTime responseTime
    provider
  applyMeta metadata (temperatureStep config (errorReasonStep err payload))

theorem lookup_foldCopy_not_mem (keys : List String) (meta base : List (String × GoVal))
    (k : String) (hk : k ∉ keys) :
    (keys.foldl (copyMeta meta) base).lookup k = base.lookup k := by
  induction keys generalizing base with
  | nil => rfl
  | cons k0 rest ih =>
    have hk0 : k ≠ k0 := fun h => hk (h ▸ List.mem_cons_self k0 rest)
    have hrest : k ∉ rest := fun h => hk (List.mem_cons_of_mem k0 h)
    simp only [List.foldl_cons]
    rw [ih (copyMeta meta base k0) hrest]
    unfold copyMeta
    cases meta.lookup k0 with
    | none => rfl
    | some v => exact lookup_mapSet_ne base k0 k v hk0

theorem lookup_foldCopy_none (keys : List String) (meta base : List (String × GoVal))
    (k : String) (hk : meta.lookup k = none) :
    (keys.foldl (copyMeta meta) base).lookup k = base.lookup k := by
  induction keys generalizing base with
  | nil => rfl
  | cons k0 rest ih =>
    simp only [List.foldl_cons]
    rw [ih (copyMeta meta base k0)]
    by_cases h : k = k0
    · subst h
      unfold copyMeta
      rw [hk]
    · unfold copyMeta
      cases meta.lookup k0 with
      | none => rfl
      | some v => exact lookup_mapSet_ne base k0 k v h

theorem lookup_foldCopy_some (keys : List String) (meta base : List (String × GoVal))
    (k : String) (v : GoVal) (hv : meta.lookup k = some v) (hk : k ∈ keys) :
    (keys.foldl (copyMeta meta) base).lookup k = some v := by
  induction keys generalizing base with
  | nil => cases hk
  | cons k0 rest ih =>
    simp only [List.foldl_cons]
    by_cases hmem : k ∈ rest
    · exact ih (copyMeta meta base k0) hmem
    · have hk0 : k = k0 := by
        rcases List.mem_cons.mp hk with h | h
        · exact h
        · exact absurd h hmem
      subst hk0
      rw [lookup_foldCopy_not_mem rest meta _ k hmem]
      unfold copyMeta
      rw [hv]
      exact lookup_mapSet_self base k v

/-! ### Error taxonomy and delivery retry (part_004)

The error constructors (`NewConfigError`, `NewNetworkError`, `NewValidationError`,
`NewMeteringError`) and `IsValidationError` live in a source file that is not
part of the given sources; they are modelled from the spec below. -/

/-- Modelled from the spec: error taxonomy of §7 (`ConfigError`, `NetworkError`,
`ValidationError`, `MeteringError`); `meteringErrorWrap` is the terminal
delivery error produced after retries are exhausted, wrapping the last
underlying error (`fmt.Errorf(..., %w, lastErr)`). -/
inductive GoError where
  | configError (msg : String)
  | networkError (msg : String) (cause : String)
  | validationError (msg : String)
  | meteringErrorMsg (msg : String) (cause : String)
  | meteringErrorWrap (msg : String) (retries : Nat) (last : GoError)
deriving Repr, DecidableEq

/-- Modelled from the spec: `IsValidationError` recognizes exactly the
4xx-validation errors (§7: "ValidationError (4xx from the metering backend —
not retried)"). -/
def isValidationError : GoError → Bool
  | .validationError _ => true
  | _ => false

/-- Outcome of one HTTP POST of the payload: a response with a status code and
body, or a transport failure. -/
inductive Attempt where
  | httpResp (status : Nat) (body : String)
  | netFail (cause : String)
deriving Repr, DecidableEq

/-- Embeds `sendMeteringRequest` (part_004): configuration check, then
classification of the single attempt's outcome — transport failure becomes a
`NetworkError`, a 4xx a `ValidationError`, any other non-2xx a `MeteringError`,
and 2xx succeeds.  Serialization of the payload never fails for the values
`GoVal` can hold, matching `json.Marshal` on this payload shape. -/
def sendMeteringRequest (config : Option Config) (att : Attempt) :
    Except GoError Unit :=
  match config with
  | none => .error (.configError "metering not configured")
  | some cfg =>
    if cfg.reveniumAPIKey = "" then .error (.configError "metering not configured")
    else
      match att with
      | .netFail cause => .error (.networkError "metering request failed" cause)
      | .httpResp status body =>
        if status < 200 ∨ 300 ≤ status then
          if 400 ≤ status ∧ status < 500 then
            .error (.validationError
              ("metering API returned " ++ toString status ++ ": " ++ body))
          else
            .error (.meteringErrorMsg "metering API error"
              ("status " ++ toString status ++ ": " ++ body))
        else .ok ()

/-- Observable trace of `sendMeteringWithRetry`: how many attempts were made,
the backoff sleeps performed between them (milliseconds), the payload sent on
each attempt, and the returned value. -/
structure RetryTrace where
  attemptsMade : Nat
  sleeps : List Nat
  sent : List (List (String × GoVal))
  result : Except GoError Unit
deriving Repr

/-- Loop body of `sendMeteringWithRetry`: `remaining` counts the iterations
left of `for attempt := 0; attempt < maxRetries; attempt++`, `backoff` the
current backoff duration, doubled after each sleep.  A success or a validation
error returns immediately; exhaustion returns the terminal metering error
wrapping the last error. -/
def retryLoop (config : Option Config) (outs : Nat → Attempt) :
    Nat → Nat → Nat → Option GoError → List Nat → List (List (String × GoVal)) →
    List (String × GoVal) → RetryTrace
  | attempt, 0, _, lastErr, sleeps, sent, _ =>
    ⟨attempt, sleeps, sent,
     .error (.meteringErrorWrap "metering failed after retries" 3
       (lastErr.getD (.configError "")))⟩
  | attempt, remaining + 1, backoff, _, sleeps, sent, payload =>
    let sleeps' := if attempt > 0 then sleeps ++ [backoff] else sleeps
    let backoff' := if attempt > 0 then backoff * 2 else backoff
    let sent' := sent ++ [payload]
    match sendMeteringRequest config (outs attempt) with
    | .ok _ => ⟨attempt + 1, sleeps', sent', .ok ()⟩
    | .error e =>
      if isValidationError e then ⟨attempt + 1, sleeps', sent', .error e⟩
      else retryLoop config outs (attempt + 1) remaining backoff' (some e) sleeps' sent' payload

/-- Embeds `sendMeteringWithRetry`: `maxRetries = 3`, initial backoff 100ms.
The environment's responses to successive attempts are `outs`. -/
def sendMeteringWithRetry (config : Option Config) (payload : List (String × GoVal))
    (outs : Nat → Attempt) : RetryTrace :=
  retryLoop config outs 0 3 100 none [] [] payload

/-! ### UTF-8-safe truncation (part_005 `truncateUTF8Safe`)

Go strings are byte sequences; `len` counts bytes and indexing yields bytes,
so the functions below work on `List Nat` byte lists. -/

/-- Embeds the continuation-byte test `(s[maxBytes] & 0xC0) == 0x80`. -/
def isCont (b : Nat) : Bool := (b &&& 0xC0) == 0x80

/-- Embeds the backup loop of `truncateUTF8Safe`: starting at a byte position,
step left while the byte there is a UTF-8 continuation byte (stopping at
position 0 or when the position is at or past the end of the list). -/
def backUp (s : List Nat) : Nat → Nat
  | 0 => 0
  | p + 1 =>
    if h : p + 1 < s.length then
      if isCont (s.get ⟨p + 1, h⟩) then backUp s p else p + 1
    else p + 1

/-- The length of a well-formed UTF-8 character at the head of a byte list,
per Go's `acceptRanges` table (no overlong encodings, no surrogates, at most
U+10FFFF), or `none` when the head is not a well-formed character. -/
def utf8CharLenB (l : List Nat) : Option Nat :=
  match l with
  | [] => none
  | b0 :: rest =>
    if b0 < 0x80 then some 1
    else if 0xC2 ≤ b0 ∧ b0 ≤ 0xDF then
      match rest with
      | b1 :: _ => if 0x80 ≤ b1 ∧ b1 ≤ 0xBF then some 2 else none
      | [] => none
    else if 0xE0 ≤ b0 ∧ b0 ≤ 0xEF then
      match rest with
      | b1 :: b2 :: _ =>
        if ((if b0 = 0xE0 then 0xA0 else 0x80) ≤ b1 ∧
            b1 ≤ (if b0 = 0xED then 0x9F else 0xBF)) ∧
            0x80 ≤ b2 ∧ b2 ≤ 0xBF then some 3 else none
      | _ => none
    else if 0xF0 ≤ b0 ∧ b0 ≤ 0xF4 then
      match rest with
      | b1 :: b2 :: b3 :: _ =>
        if ((if b0 = 0xF0 then 0x90 else 0x80) ≤ b1 ∧
            b1 ≤ (if b0 = 0xF4 then 0x8F else 0xBF)) ∧
            0x80 ≤ b2 ∧ b2 ≤ 0xBF ∧ 0x80 ≤ b3 ∧ b3 ≤ 0xBF then some 4 else none
      | _ => none
    else none

/-- Embeds `utf8.ValidString` of the Go standard library on byte lists:
repeatedly consume one well-formed character. -/
def utf8ValidB : List Nat → Bool
  | [] => true
  | b0 :: rest =>
    match utf8CharLenB (b0 :: rest) with
    | some n => utf8ValidB (rest.drop (n - 1))
    | none => false
termination_by l => l.length
decreasing_by
  simp only [List.length_cons, List.length_drop]
  omega

/-- Embeds Go's `utf8.DecodeRune` on the head of a byte list: returns the
decoded code point and the number of bytes consumed; any invalid prefix
decodes as U+FFFD consuming one byte. -/
def decodeOne : List Nat → Nat × Nat
  | [] => (0xFFFD, 0)
  | b0 :: rest =>
    if b0 < 0x80 then (b0, 1)
    else if 0xC2 ≤ b0 ∧ b0 ≤ 0xDF then
      match rest with
      | b1 :: _ =>
        if 0x80 ≤ b1 ∧ b1 ≤ 0xBF then ((b0 - 0xC0) * 64 + (b1 - 0x80), 2)
        else (0xFFFD, 1)
      | [] => (0xFFFD, 1)
    else if 0xE0 ≤ b0 ∧ b0 ≤ 0xEF then
      match rest with
      | b1 :: b2 :: _ =>
        if ((if b0 = 0xE0 then 0xA0 else 0x80) ≤ b1 ∧
            b1 ≤ (if b0 = 0xED then 0x9F else 0xBF)) ∧
            0x80 ≤ b2 ∧ b2 ≤ 0xBF then
          ((b0 - 0xE0) * 4096 + (b1 - 0x80) * 64 + (b2 - 0x80), 3)
        else (0xFFFD, 1)
      | _ => (0xFFFD, 1)
    else if 0xF0 ≤ b0 ∧ b0 ≤ 0xF4 then
      match rest with
      | b1 :: b2 :: b3 :: _ =>
        if ((if b0 = 0xF0 then 0x90 else 0x80) ≤ b1 ∧
            b1 ≤ (if b0 = 0xF4 then 0x8F else 0xBF)) ∧
            0x80 ≤ b2 ∧ b2 ≤ 0xBF ∧ 0x80 ≤ b3 ∧ b3 ≤ 0xBF then
          ((b0 - 0xF0) * 262144 + (b1 - 0x80) * 4096 + (b2 - 0x80) * 64 + (b3 - 0x80), 4)
        else (0xFFFD, 1)
      | _ => (0xFFFD, 1)
    else (0xFFFD, 1)

/-- Embeds Go's `[]rune(s)` conversion: decode code points left to right,
replacing each invalid byte with U+FFFD. -/
def goRunes : List Nat → List Nat
  | [] => []
  | b0 :: rest =>
    let d := decodeOne (b0 :: rest)
    d.1 :: goRunes (rest.drop (d.2 - 1))
termination_by l => l.length
decreasing_by
  simp only [List.length_cons]
  have h : (List.drop ((decodeOne (b0 :: rest)).2 - 1) rest).length ≤ rest.length := by
    rw [List.length_drop]; omega
  omega

/-- Embeds `utf8.RuneLen` for the code points `goRunes` can produce. -/
def runeLen (r : Nat) : Nat :=
  if r < 0x80 then 1 else if r < 0x800 then 2 else if r < 0x10000 then 3 else 4

/-- Standard UTF-8 encoding of a code point, embedding Go's `string(r)`
conversion for the code points `goRunes` can produce. -/
def utf8Encode (r : Nat) : List Nat :=
  if r < 0x80 then [r]
  else if r < 0x800 then [0xC0 + r / 64, 0x80 + r % 64]
  else if r < 0x10000 then [0xE0 + r / 4096, 0x80 + r / 64 % 64, 0x80 + r % 64]
  else [0xF0 + r / 262144, 0x80 + r / 4096 % 64, 0x80 + r / 64 % 64, 0x80 + r % 64]

/-- Embeds the rune-iteration fallback loop of `truncateUTF8Safe`: append
encoded runes while the result stays within `maxBytes`, stopping at the first
rune that would overflow. -/
def runesTake (runes : List Nat) (maxBytes : Nat) (acc : List Nat) : List Nat :=
  match runes with
  | [] => acc
  | r :: rest =>
    if acc.length + runeLen r > maxBytes then acc
    else runesTake rest maxBytes (acc ++ utf8Encode r)

/-- Embeds `truncateUTF8Safe` (part_005): strings at or under `maxBytes` are
returned unchanged; otherwise back up from `maxBytes` over continuation bytes
and cut there; if the cut is somehow not valid UTF-8, fall back to rune
iteration. -/
def truncateUTF8Safe (s : List Nat) (maxBytes : Nat) : List Nat :=
  if s.length ≤ maxBytes then s
  else
    let result := s.take (backUp s maxBytes)
    if utf8ValidB result then result else runesTake (goRunes s) maxBytes []

/-- The constant `MaxPromptLength` (part_005). -/
def MaxPromptLength : Nat := 50000

/-- Byte list of the constant `TruncationMarker` = `"...[TRUNCATED]"`. -/
def markerBytes : List Nat := [46, 46, 46, 91, 84, 82, 85, 78, 67, 65, 84, 69, 68, 93]

/-! ### Prompt extraction (part_005) -/

/-- The `PromptData` record (part_005); text fields are byte lists. -/
structure PromptData where
  systemPrompt : List Nat
  inputMessages : List Nat
  outputResponse : List Nat
  promptsTruncated : Bool
deriving Repr, DecidableEq

/-- Embeds `extractContentText`: concatenate the non-empty texts of all
non-nil parts, separated by a newline byte. -/
def extractContentText (content : Option Content) : List Nat :=
  match content with
  | none => []
  | some c =>
    if c.parts = [] then []
    else
      c.parts.foldl (fun acc part =>
        match part with
        | none => acc
        | some p =>
          if p.text = [] then acc
          else if acc = [] then p.text
          else acc ++ [10] ++ p.text) []

/-- Byte list of the default role `"user"`. -/
def userBytes : List Nat := [117, 115, 101, 114]

/-- One message of the per-message loop of `ExtractPromptsFromRequest`: default
the role to `"user"`, and truncate the content at half the overall limit
(`halfLimit = MaxPromptLength / 2`) before serialization. -/
def truncMsg (c : Content) : List Nat × List Nat :=
  let role := if c.role = [] then userBytes else c.role
  let text := extractContentText (some c)
  if text.length > MaxPromptLength / 2 then
    (role, truncateUTF8Safe text (MaxPromptLength / 2 - markerBytes.length) ++ markerBytes)
  else (role, text)

/-- One iteration of the message-accumulation loop of
`ExtractPromptsFromRequest`: skip a nil content, append the (possibly
truncated) message, and record whether this message was truncated. -/
def buildMessagesStep (acc : List (List Nat × List Nat) × Bool) (oc : Option Content) :
    List (List Nat × List Nat) × Bool :=
  match oc with
  | none => acc
  | some c =>
    if (extractContentText (some c)).length > MaxPromptLength / 2 then
      (acc.1 ++ [truncMsg c], true)
    else (acc.1 ++ [truncMsg c], acc.2)

/-- The message-accumulation loop of `ExtractPromptsFromRequest` (the data's
truncation flag starts from the system-prompt pass). -/
def buildMessages (contents : List (Option Content)) (flag0 : Bool) :
    List (List Nat × List Nat) × Bool :=
  contents.foldl buildMessagesStep ([], flag0)

/-- Lowercase hex digit byte for a value below 16, as `encoding/json` emits in
`\u00XX` escapes. -/
def hexDigit (n : Nat) : Nat := if n < 10 then 48 + n else 87 + n

/-- Byte-level JSON string escaping as performed by Go's `encoding/json` on
the bytes of a string value: quote, backslash, control bytes and the
HTML-escaped `<`, `>`, `&` are escaped; all other bytes pass through. -/
def escByte (b : Nat) : List Nat :=
  if b = 0x22 then [0x5C, 0x22]
  else if b = 0x5C then [0x5C, 0x5C]
  else if b = 0x0A then [0x5C, 0x6E]
  else if b = 0x0D then [0x5C, 0x72]
  else if b = 0x09 then [0x5C, 0x74]
  else if b < 0x20 ∨ b = 0x3C ∨ b = 0x3E ∨ b = 0x26 then
    [0x5C, 0x75, 0x30, 0x30, hexDigit (b / 16), hexDigit (b % 16)]
  else [b]

/-- JSON string literal for a byte string: quote, escaped bytes, quote. -/
def renderString (s : List Nat) : List Nat :=
  [0x22] ++ (s.map escByte).flatten ++ [0x22]

/-- Byte list of the object key `"content"`. -/
def contentKeyBytes : List Nat := [99, 111, 110, 116, 101, 110, 116]

/-- Byte list of the object key `"role"`. -/
def roleKeyBytes : List Nat := [114, 111, 108, 101]

/-- JSON object for one message, with keys in the sorted order `json.Marshal`
emits for a `map[string]interface{}`: `content` before `role`. -/
def renderMsg (m : List Nat × List Nat) : List Nat :=
  [0x7B] ++ renderString contentKeyBytes ++ [0x3A] ++ renderString m.2 ++ [0x2C] ++
    renderString roleKeyBytes ++ [0x3A] ++ renderString m.1 ++ [0x7D]

/-- Comma-separated concatenation of rendered JSON values. -/
def sepByComma : List (List Nat) → List Nat
  | [] => []
  | [x] => x
  | x :: y :: rest => x ++ [0x2C] ++ sepByComma (y :: rest)

/-- JSON array of rendered message objects, embedding `json.Marshal(messages)`
for the message list built by `ExtractPromptsFromRequest`. -/
def renderMessages (msgs : List (List Nat × List Nat)) : List Nat :=
  [0x5B] ++ sepByComma (msgs.map renderMsg) ++ [0x5D]

/-- System-instruction pass of `ExtractPromptsFromRequest`: the extracted
system text, truncated at the full limit if needed, plus the truncation flag
it contributes. -/
def extractSystemPrompt (config : Option GenConfig) : List Nat × Bool :=
  match config with
  | none => ([], false)
  | some cfg =>
    match cfg.systemInstruction with
    | none => ([], false)
    | some si =>
      let systemContent := extractContentText (some si)
      if systemContent = [] then ([], false)
      else if systemContent.length > MaxPromptLength then
        (truncateUTF8Safe systemContent (MaxPromptLength - markerBytes.length) ++
          markerBytes, true)
      else (systemContent, false)

/-- Embeds `ExtractPromptsFromRequest` (part_005): system prompt from the
config, per-message list truncated individually at half the limit and then
serialized to a JSON array which is never truncated afterwards. -/
def ExtractPromptsFromRequest (contents : List (Option Content))
    (config : Option GenConfig) : PromptData :=
  let sys := extractSystemPrompt config
  let msgs := buildMessages contents sys.2
  let inputMessages := if msgs.1 = [] then [] else renderMessages msgs.1
  ⟨sys.1, inputMessages, [], msgs.2⟩

/-- Embeds `ExtractResponseContent` (part_005): `respText` is the value of
`resp.Text()` (`none` for a nil response).  Text over the limit is cut at
`MaxPromptLength - len(TruncationMarker)` and the marker appended; text at or
under the limit passes through unchanged; the flag is set when truncation
happened here and is otherwise the caller's flag. -/
def ExtractResponseContent (respText : Option (List Nat)) (promptsTruncated : Bool) :
    PromptData :=
  match respText with
  | none => ⟨[], [], [], promptsTruncated⟩
  | some content =>
    if content = [] then ⟨[], [], [], promptsTruncated⟩
    else if content.length > MaxPromptLength then
      ⟨[], [],
       truncateUTF8Safe content (MaxPromptLength - markerBytes.length) ++ markerBytes,
       true⟩
    else ⟨[], [], content, promptsTruncated⟩

/-! ### Vision detection (vision.go) -/

/-- The `VisionDetectionResult` record. -/
structure VisionDetectionResult where
  hasVisionContent : Bool
  imageCount : Nat
  totalImageSizeBytes : Nat
  mediaTypes : List String
deriving Repr, DecidableEq

/-- Embeds Go's `strings.ToLower` as the character-wise lower-casing of the
string (they agree on the ASCII media-type strings the middleware compares). -/
def goToLower (s : String) : String := ⟨s.data.map Char.toLower⟩

/-- Embeds Go's `strings.HasPrefix`. -/
def goHasPrefix (s pre : String) : Bool := pre.data.isPrefixOf s.data

/-- Embeds `isImageMimeType`: non-empty MIME type whose lower-casing starts
with `"image/"`. -/
def isImageMimeType (mimeType : String) : Bool :=
  if mimeType = "" then false
  else goHasPrefix (goToLower mimeType) "image/"

/-- Embeds `containsString`. -/
def containsString (slice : List String) (val : String) : Bool :=
  slice.contains val

/-- Embeds `processInlineData`: an image blob bumps the count, records a new
media type, and adds the byte length of its data. -/
def processInlineData (blob : Blob) (result : VisionDetectionResult) :
    VisionDetectionResult :=
  if !isImageMimeType blob.mimeType then result
  else
    { hasVisionContent := true
      imageCount := result.imageCount + 1
      mediaTypes :=
        if blob.mimeType ≠ "" ∧ !containsString result.mediaTypes blob.mimeType then
          result.mediaTypes ++ [blob.mimeType]
        else result.mediaTypes
      totalImageSizeBytes := result.totalImageSizeBytes + blob.data.length }

/-- Embeds `processFileData`: an image file reference bumps the count and
records the media type; its size is unknown and contributes nothing. -/
def processFileData (fileData : FileData) (result : VisionDetectionResult) :
    VisionDetectionResult :=
  if !isImageMimeType fileData.mimeType then result
  else
    { hasVisionContent := true
      imageCount := result.imageCount + 1
      mediaTypes :=
        if fileData.mimeType ≠ "" ∧ !containsString result.mediaTypes fileData.mimeType then
          result.mediaTypes ++ [fileData.mimeType]
        else result.mediaTypes
      totalImageSizeBytes := result.totalImageSizeBytes }

/-- Embeds `DetectVisionContent`: scan every part of every non-nil content,
feeding inline blobs and file references through the processors above; nil
input yields the all-empty result. -/
def DetectVisionContent (contents : Option (List (Option Content))) :
    VisionDetectionResult :=
  let init : VisionDetectionResult := ⟨false, 0, 0, []⟩
  match contents with
  | none => init
  | some cs =>
    cs.foldl (fun acc oc =>
      match oc with
      | none => acc
      | some c =>
        c.parts.foldl (fun acc2 op =>
          match op with
          | none => acc2
          | some p =>
            let acc3 :=
              match p.inlineData with
              | some blob => processInlineData blob acc2
              | none => acc2
            match p.fileData with
            | some fd => processFileData fd acc3
            | none => acc3) acc) init

/-- Embeds `BuildVisionAttributes`: `none` when no vision content, else the
attributes map nesting the stats. -/
def BuildVisionAttributes (result : VisionDetectionResult) :
    Option (List (String × GoVal)) :=
  if !result.hasVisionContent then none
  else
    some
      [("vision_image_count", .int result.imageCount),
       ("vision_total_size_bytes", .int result.totalImageSizeBytes),
       ("vision_media_types", .str (String.intercalate "," result.mediaTypes))]

/-! ### Streaming wrapper (part_004 `GenerateContentStream`)

The returned iterator is modelled as a pure recursion over the list of items
the SDK stream produces; the consumer's `yield` results are a predicate on the
yield index.  Dispatching the background metering task is recorded as a
`MeterDispatch` holding the arguments that reach
`sendMeteringDataWithTiming`. -/

/-- One item produced by the underlying SDK stream: a chunk, or an error. -/
inductive StreamItem where
  | chunk (r : GenResponse)
  | failure (e : String)
deriving Repr, DecidableEq

/-- A background metering dispatch made by the stream wrapper: the response it
passes on (rebuilt from the accumulated usage only), the streaming flag, and
the optional stream error. -/
structure MeterDispatch where
  resp : Option GenResponse
  isStreamed : Bool
  err : Option String
deriving Repr, DecidableEq

/-- Loop body of the wrapped stream: `yieldRes i` is what the consumer's
`yield` returns for the `i`-th forwarded chunk, `lastUsage` the accumulated
usage metadata.  On an upstream error, metering is dispatched (with the
accumulated usage if any) and the iteration ends; on `yield` returning false,
metering is dispatched only if usage was accumulated; on exhaustion, likewise. -/
def runStreamAux : List StreamItem → (Nat → Bool) → Nat → Option UsageMetadata →
    List MeterDispatch
  | [], _, _, lastUsage =>
    match lastUsage with
    | some u => [⟨some ⟨[], some u⟩, true, none⟩]
    | none => []
  | .failure e :: _, _, _, lastUsage =>
    match lastUsage with
    | some u => [⟨some ⟨[], some u⟩, true, some e⟩]
    | none => [⟨none, true, some e⟩]
  | .chunk r :: rest, yieldRes, i, lastUsage =>
    let lastUsage' :=
      match r.usageMetadata with
      | some u => some u
      | none => lastUsage
    if yieldRes i then runStreamAux rest yieldRes (i + 1) lastUsage'
    else
      match lastUsage' with
      | some u => [⟨some ⟨[], some u⟩, true, none⟩]
      | none => []

/-- Embeds `GenerateContentStream`'s wrapper closure: the list of metering
dispatches it makes for a given upstream item list and consumer behavior. -/
def runStream (events : List StreamItem) (yieldRes : Nat → Bool) :
    List MeterDispatch :=
  runStreamAux events yieldRes 0 none

/-- How the wrapped stream loop terminates: the same recursion as
`runStreamAux`, but recording the final state instead of the dispatches — the
mid-stream error (if the loop ended on one) and the usage metadata accumulated
when the loop ended (for an early stop, the stopping chunk's usage has already
been folded in, exactly as the code captures `resp.UsageMetadata` before
calling `yield`). -/
def streamOutcome : List StreamItem → (Nat → Bool) → Nat → Option UsageMetadata →
    Option String × Option UsageMetadata
  | [], _, _, lastUsage => (none, lastUsage)
  | .failure e :: _, _, _, lastUsage => (some e, lastUsage)
  | .chunk r :: rest, yieldRes, i, lastUsage =>
    let lastUsage' :=
      match r.usageMetadata with
      | some u => some u
      | none => lastUsage
    if yieldRes i then streamOutcome rest yieldRes (i + 1) lastUsage'
    else (none, lastUsage')

/-- A delivery attempt outcome that consumes an attempt and is retried:
an error that is not a validation error. -/
def retryableFail (r : Except GoError Unit) : Prop :=
  ∃ g, r = .error g ∧ isValidationError g = false

/-! ### UTF-8 well-formedness (specification side)

`Utf8Char` and `Utf8V` state RFC 3629 validity of byte lists — the property
`utf8.ValidString` decides — as an inductive structure suitable for proofs;
`IsB` identifies the valid character boundaries of a byte list. -/

/-- One well-formed UTF-8 character encoding (RFC 3629 / Go's `acceptRanges`):
ASCII, or a 2-, 3- or 4-byte sequence with the lead/continuation constraints
that exclude overlong forms, surrogates and values above U+10FFFF. -/
def Utf8Char (c : List Nat) : Prop :=
  match c with
  | [b0] => b0 < 0x80
  | [b0, b1] => 0xC2 ≤ b0 ∧ b0 ≤ 0xDF ∧ 0x80 ≤ b1 ∧ b1 ≤ 0xBF
  | [b0, b1, b2] =>
    ((b0 = 0xE0 ∧ 0xA0 ≤ b1 ∧ b1 ≤ 0xBF) ∨
     (0xE1 ≤ b0 ∧ b0 ≤ 0xEC ∧ 0x80 ≤ b1 ∧ b1 ≤ 0xBF) ∨
     (b0 = 0xED ∧ 0x80 ≤ b1 ∧ b1 ≤ 0x9F) ∨
     (0xEE ≤ b0 ∧ b0 ≤ 0xEF ∧ 0x80 ≤ b1 ∧ b1 ≤ 0xBF)) ∧
    0x80 ≤ b2 ∧ b2 ≤ 0xBF
  | [b0, b1, b2, b3] =>
    ((b0 = 0xF0 ∧ 0x90 ≤ b1 ∧ b1 ≤ 0xBF) ∨
     (0xF1 ≤ b0 ∧ b0 ≤ 0xF3 ∧ 0x80 ≤ b1 ∧ b1 ≤ 0xBF) ∨
     (b0 = 0xF4 ∧ 0x80 ≤ b1 ∧ b1 ≤ 0x8F)) ∧
    0x80 ≤ b2 ∧ b2 ≤ 0xBF ∧ 0x80 ≤ b3 ∧ b3 ≤ 0xBF
  | _ => False

/-- A byte list is valid UTF-8: a concatenation of well-formed characters. -/
inductive Utf8V : List Nat → Prop where
  | nil : Utf8V []
  | cons (c rest : List Nat) : Utf8Char c → Utf8V rest → Utf8V (c ++ rest)

/-- `IsB s p` — position `p` is a character boundary of `s`: the prefix of
length `p` is a concatenation of well-formed characters. -/
inductive IsB : List Nat → Nat → Prop where
  | zero (s : List Nat) : IsB s 0
  | step (c rest : List Nat) (p : Nat) : Utf8Char c → IsB rest p →
      IsB (c ++ rest) (c.length + p)

/-- Length of a well-formed character as a function of its lead byte. -/
def leadLen (b0 : Nat) : Nat :=
  if b0 < 0x80 then 1 else if b0 ≤ 0xDF then 2 else if b0 ≤ 0xEF then 3 else 4

/-! ### JSON grammar fragment (specification side)

The productions of RFC 8259 needed to state that the serialized message array
is a valid JSON text: string characters and escapes, strings, members with
string values, non-empty objects and non-empty arrays of objects.  Membership
in `JArr` exhibits a derivation in the JSON grammar. -/

/-- A hexadecimal digit byte (`0-9`, `a-f`, `A-F`). -/
def IsHex (b : Nat) : Prop :=
  (48 ≤ b ∧ b ≤ 57) ∨ (97 ≤ b ∧ b ≤ 102) ∨ (65 ≤ b ∧ b ≤ 70)

/-- The characters admissible between the quotes of a JSON string literal:
unescaped bytes at or above 0x20 other than quote and backslash, two-byte
escapes, and `\uXXXX` escapes. -/
inductive JStrChars : List Nat → Prop where
  | nil : JStrChars []
  | plain (b : Nat) (l : List Nat) : 0x20 ≤ b → b ≠ 0x22 → b ≠ 0x5C →
      JStrChars l → JStrChars (b :: l)
  | esc (b : Nat) (l : List Nat) :
      b ∈ ([0x22, 0x5C, 0x2F, 0x62, 0x66, 0x6E, 0x72, 0x74] : List Nat) →
      JStrChars l → JStrChars (0x5C :: b :: l)
  | uesc (h1 h2 h3 h4 : Nat) (l : List Nat) : IsHex h1 → IsHex h2 → IsHex h3 →
      IsHex h4 → JStrChars l → JStrChars (0x5C :: 0x75 :: h1 :: h2 :: h3 :: h4 :: l)

/-- A JSON string literal. -/
def JString (s : List Nat) : Prop :=
  ∃ inner, JStrChars inner ∧ s = 0x22 :: inner ++ [0x22]

/-- A JSON object member whose value is a string: `key : value`. -/
def JPair (s : List Nat) : Prop :=
  ∃ k v, JString k ∧ JString v ∧ s = k ++ [0x3A] ++ v

/-- A non-empty comma-separated member list. -/
inductive JMembers : List Nat → Prop where
  | one (m : List Nat) : JPair m → JMembers m
  | more (m rest : List Nat) : JPair m → JMembers rest →
      JMembers (m ++ [0x2C] ++ rest)

/-- A non-empty JSON object of string members. -/
def JObject (s : List Nat) : Prop :=
  ∃ inner, JMembers inner ∧ s = 0x7B :: inner ++ [0x7D]

/-- A non-empty comma-separated list of objects. -/
inductive JElems : List Nat → Prop where
  | one (v : List Nat) : JObject v → JElems v
  | more (v rest : List Nat) : JObject v → JElems rest →
      JElems (v ++ [0x2C] ++ rest)

/-- A non-empty JSON array of objects — a valid JSON text. -/
def JArr (s : List Nat) : Prop :=
  ∃ inner, JElems inner ∧ s = 0x5B :: inner ++ [0x5D]

/-! ### Concrete fixtures used by counterexamples and witnesses -/

/-- A configured `Config` value (only the Revenium API key matters to the
delivery engine). -/
def testCfg : Config :=
  ⟨"", "", "", "hak_test", "https://api.revenium.ai", false, false, false⟩

/-- Sixteen bytes: eight UTF-8 encodings of U+00E9 (0xC3 0xA9). -/
def eAcuteTail : List Nat :=
  [195, 169, 195, 169, 195, 169, 195, 169, 195, 169, 195, 169, 195, 169, 195, 169]

/-- A 50001-byte valid UTF-8 response text: 49985 ASCII `a` bytes followed by
eight two-byte characters; byte 49986 (the truncation cut point) falls inside
a character. -/
def cexContent : List Nat := List.replicate 49985 97 ++ eAcuteTail

/-- A one-message request whose single text part is 25001 ASCII bytes — just
over half the 50000-byte limit. -/
def bigMsgContent : Content :=
  ⟨userBytes, [some ⟨List.replicate 25001 97, none, none⟩]⟩

/-- A request carrying exactly one inline `image/png` part of 1024 bytes. -/
def pngContents : List (Option Content) :=
  [some ⟨userBytes, [some ⟨[], some ⟨"image/png", List.replicate 1024 0⟩, none⟩]⟩]

/-! ## Theorems -/

/-- C7: `DetectProvider` is a pure total function (a Lean function on
`Option Config`, defined for `none` as well) returning exactly one of the two
provider tags; it returns VERTEX_AI precisely when the configuration is
present, the Vertex-disable flag is clear, and a cloud-project identifier is
present — in every other case (nil config, disable flag set, or no project id)
it returns GOOGLE_AI. -/
theorem detectProvider_rule (cfg : Option Config) :
    (DetectProvider cfg = .googleAI ∨ DetectProvider cfg = .vertexAI) ∧
      (DetectProvider cfg = .vertexAI ↔
        ∃ c, cfg = some c ∧ c.vertexDisabled = false ∧ c.projectID ≠ "") := by
  cases cfg with
  | none => simp [DetectProvider]
  | some c =>
    by_cases hd : c.vertexDisabled <;> by_cases hp : c.projectID = "" <;>
      simp [DetectProvider, hd, hp]

/-- Table form of the normalized switch, matching the spec's grouping. -/
theorem mapNormalized_eq_spec (u d : String) :
    mapNormalized u d =
      (if u = "STOP" then "END"
       else if u = "MAX_TOKENS" then "TOKEN_LIMIT"
       else if u ∈ ["SAFETY", "RECITATION", "BLOCKLIST", "PROHIBITED_CONTENT", "SPII",
           "MODEL_ARMOR", "IMAGE_SAFETY", "IMAGE_PROHIBITED_CONTENT", "IMAGE_RECITATION",
           "MALFORMED_FUNCTION_CALL", "UNEXPECTED_TOOL_CALL", "NO_IMAGE"] then "ERROR"
       else if u = "CANCELLED" ∨ u = "CANCELED" then "CANCELLED"
       else d) := by
  unfold mapNormalized
  simp only [stopReasonEnd, stopReasonTokenLimit, stopReasonError, stopReasonCancelled,
    List.mem_cons, List.mem_singleton, List.not_mem_nil, or_false]
  split_ifs <;> first | rfl | tauto

/-- C2: for every finish-reason string and caller-supplied default,
`MapGoogleFinishReason` agrees with the specification's case-insensitive
mapping table (`specStopReason`): STOP maps to END, MAX_TOKENS to TOKEN_LIMIT,
every safety/policy/content-filter/malformed-tool-call reason to ERROR, both
spellings of cancellation to CANCELLED, and unspecified/other, the empty
string, or anything unrecognized to the caller-supplied default; moreover the
result is always either the caller-supplied default or one of the closed
standardized values END, TOKEN_LIMIT, ERROR, CANCELLED — the function is total
(never panics). -/
theorem mapGoogleFinishReason_spec_table (s d : String) :
    MapGoogleFinishReason s d = specStopReason s d ∧
      (MapGoogleFinishReason s d = d ∨
        MapGoogleFinishReason s d ∈ ["END", "TOKEN_LIMIT", "ERROR", "CANCELLED"]) := by
  constructor
  · unfold MapGoogleFinishReason
    by_cases hs : s = ""
    · subst hs
      rw [if_pos rfl]
      unfold specStopReason
      have h0 : ("" : String).toUpper = "" := by
        simp [String.toUpper, String.map_eq]
      simp only [h0]
      simp
    · rw [if_neg hs, mapNormalized_eq_spec]
      unfold specStopReason
      rfl
  · unfold MapGoogleFinishReason
    by_cases hs : s = ""
    · rw [if_pos hs]; left; rfl
    · rw [if_neg hs, mapNormalized_eq_spec]
      split_ifs <;> simp

/-- Shape of every run of the retry engine: at most 3 attempts, the performed
sleeps are the prefix of [100, 200] matching the attempts beyond the first, and
every attempt sends the same payload value it was given. -/
theorem retry_trace_shape (cfg : Option Config) (payload : List (String × GoVal))
    (outs : Nat → Attempt) :
    (sendMeteringWithRetry cfg payload outs).attemptsMade ≤ 3 ∧
    (sendMeteringWithRetry cfg payload outs).sleeps =
      List.take ((sendMeteringWithRetry cfg payload outs).attemptsMade - 1) [100, 200] ∧
    (sendMeteringWithRetry cfg payload outs).sent =
      List.replicate (sendMeteringWithRetry cfg payload outs).attemptsMade payload := by
  unfold sendMeteringWithRetry
  cases h0 : sendMeteringRequest cfg (outs 0) with
  | ok u => cases u; simp [retryLoop, h0, List.replicate]
  | error e0 =>
    by_cases hv0 : isValidationError e0
    · simp [retryLoop, h0, hv0, List.replicate]
    · cases h1 : sendMeteringRequest cfg (outs 1) with
      | ok u => cases u; simp [retryLoop, h0, hv0, h1, List.replicate]
      | error e1 =>
        by_cases hv1 : isValidationError e1
        · simp [retryLoop, h0, hv0, h1, hv1, List.replicate]
        · cases h2 : sendMeteringRequest cfg (outs 2) with
          | ok u => cases u; simp [retryLoop, h0, hv0, h1, h2, hv1, List.replicate]
          | error e2 =>
            by_cases hv2 : isValidationError e2 <;>
              simp [retryLoop, h0, hv0, h1, hv1, h2, hv2, List.replicate]

/-- C3: the delivery function makes at most 3 attempts, with sleeps of 100ms
then 200ms between attempts and none before the first; a 4xx (validation)
answer returns immediately without consuming the remaining attempts — after 0,
1, or 2 retryable failures it ends the run at attempt 1, 2, or 3 with that
validation error; a success ends the run successfully (two retryable failures
then a success make exactly 3 attempts); and when all 3 attempts fail
retryably the result is the terminal metering error wrapping the last
underlying error. -/
theorem sendMeteringWithRetry_policy (cfg : Option Config)
    (payload : List (String × GoVal)) (outs : Nat → Attempt) :
    (sendMeteringWithRetry cfg payload outs).attemptsMade ≤ 3 ∧
    (sendMeteringWithRetry cfg payload outs).sleeps =
      List.take ((sendMeteringWithRetry cfg payload outs).attemptsMade - 1) [100, 200] ∧
    (∀ v, sendMeteringRequest cfg (outs 0) = .error v → isValidationError v = true →
      sendMeteringWithRetry cfg payload outs = ⟨1, [], [payload], .error v⟩) ∧
    (∀ v, retryableFail (sendMeteringRequest cfg (outs 0)) →
      sendMeteringRequest cfg (outs 1) = .error v → isValidationError v = true →
      sendMeteringWithRetry cfg payload outs = ⟨2, [100], [payload, payload], .error v⟩) ∧
    (∀ v, retryableFail (sendMeteringRequest cfg (outs 0)) →
      retryableFail (sendMeteringRequest cfg (outs 1)) →
      sendMeteringRequest cfg (outs 2) = .error v → isValidationError v = true →
      sendMeteringWithRetry cfg payload outs =
        ⟨3, [100, 200], [payload, payload, payload], .error v⟩) ∧
    (sendMeteringRequest cfg (outs 0) = .ok () →
      sendMeteringWithRetry cfg payload outs = ⟨1, [], [payload], .ok ()⟩) ∧
    (retryableFail (sendMeteringRequest cfg (outs 0)) →
      retryableFail (sendMeteringRequest cfg (outs 1)) →
      sendMeteringRequest cfg (outs 2) = .ok () →
      sendMeteringWithRetry cfg payload outs =
        ⟨3, [100, 200], [payload, payload, payload], .ok ()⟩) ∧
    (∀ g, retryableFail (sendMeteringRequest cfg (outs 0)) →
      retryableFail (sendMeteringRequest cfg (outs 1)) →
      sendMeteringRequest cfg (outs 2) = .error g → isValidationError g = false →
      sendMeteringWithRetry cfg payload outs =
        ⟨3, [100, 200], [payload, payload, payload],
         .error (.meteringErrorWrap "metering failed after retries" 3 g)⟩) := by
  refine ⟨(retry_trace_shape cfg payload outs).1, (retry_trace_shape cfg payload outs).2.1,
    ?_, ?_, ?_, ?_, ?_, ?_⟩
  · intro v h0 hv
    unfold sendMeteringWithRetry
    simp [retryLoop, h0, hv]
  · rintro v ⟨g0, h0, hg0⟩ h1 hv
    unfold sendMeteringWithRetry
    simp [retryLoop, h0, hg0, h1, hv]
  · rintro v ⟨g0, h0, hg0⟩ ⟨g1, h1, hg1⟩ h2 hv
    unfold sendMeteringWithRetry
    simp [retryLoop, h0, hg0, h1, hg1, h2, hv]
  · intro h0
    unfold sendMeteringWithRetry
    simp [retryLoop, h0]
  · rintro ⟨g0, h0, hg0⟩ ⟨g1, h1, hg1⟩ h2
    unfold sendMeteringWithRetry
    simp [retryLoop, h0, hg0, h1, hg1, h2]
  · rintro g ⟨g0, h0, hg0⟩ ⟨g1, h1, hg1⟩ h2 hg
    unfold sendMeteringWithRetry
    simp [retryLoop, h0, hg0, h1, hg1, h2, hg]

theorem lookup_errorReasonStep_ne (err : Option String) (payload : List (String × GoVal))
    (k : String) (h : k ≠ "errorReason") :
    (errorReasonStep err payload).lookup k = payload.lookup k := by
  cases err with
  | none => rfl
  | some e => exact lookup_mapSet_ne payload "errorReason" k _ h

theorem lookup_temperatureStep_ne (config : Option GenConfig)
    (payload : List (String × GoVal)) (k : String) (h : k ≠ "temperature") :
    (temperatureStep config payload).lookup k = payload.lookup k := by
  cases config with
  | none => rfl
  | some c =>
    cases hc : c.temperature with
    | none => simp [temperatureStep, hc]
    | some t =>
      simp only [temperatureStep, hc]
      exact lookup_mapSet_ne payload "temperature" k _ h

/-- Keys outside the metadata allow-list and the two conditional fields read
their value straight from the base payload literal. -/
theorem lookup_build (genId : String) (resp : Option GenResponse) (model : String)
    (metadata : List (String × GoVal)) (isStreamed : Bool)
    (requestTime completionStartTime responseTime : Int) (provider : String)
    (config : Option GenConfig) (err : Option String) (k : String)
    (hmeta : k ∉ metaKeys) (herr : k ≠ "errorReason") (htemp : k ≠ "temperature") :
    (buildGoogleMeteringPayloadWithTiming genId resp model metadata isStreamed
        requestTime completionStartTime responseTime provider config err).lookup k =
      (basePayload (MapGoogleFinishReason (ExtractFinishReason resp) stopReasonEnd)
        isStreamed (inputTokensOf (usageOf resp)) (outputTokensOf (usageOf resp))
        (thinkingTokensOf (usageOf resp)) (cachedTokensOf (usageOf resp))
        (totalTokensOf (usageOf resp)) model genId requestTime completionStartTime
        responseTime provider).lookup k := by
  unfold buildGoogleMeteringPayloadWithTiming applyMeta
  dsimp only
  rw [lookup_foldCopy_not_mem _ _ _ _ hmeta, lookup_temperatureStep_ne _ _ _ htemp,
    lookup_errorReasonStep_ne _ _ _ herr]

theorem lookup_basePayload_stopReason (s : String) (isS : Bool) (a b c d tot : Int)
    (m g : String) (r1 r2 r3 : Int) (p : String) :
    (basePayload s isS a b c d tot m g r1 r2 r3 p).lookup "stopReason" =
      some (.str s) := rfl

theorem lookup_basePayload_totalTokenCount (s : String) (isS : Bool) (a b c d tot : Int)
    (m g : String) (r1 r2 r3 : Int) (p : String) :
    (basePayload s isS a b c d tot m g r1 r2 r3 p).lookup "totalTokenCount" =
      some (.int tot) := rfl

theorem lookup_basePayload_inputTokenCount (s : String) (isS : Bool) (a b c d tot : Int)
    (m g : String) (r1 r2 r3 : Int) (p : String) :
    (basePayload s isS a b c d tot m g r1 r2 r3 p).lookup "inputTokenCount" =
      some (.int a) := rfl

theorem lookup_basePayload_outputTokenCount (s : String) (isS : Bool) (a b c d tot : Int)
    (m g : String) (r1 r2 r3 : Int) (p : String) :
    (basePayload s isS a b c d tot m g r1 r2 r3 p).lookup "outputTokenCount" =
      some (.int b) := rfl

theorem lookup_basePayload_reasoningTokenCount (s : String) (isS : Bool)
    (a b c d tot : Int) (m g : String) (r1 r2 r3 : Int) (p : String) :
    (basePayload s isS a b c d tot m g r1 r2 r3 p).lookup "reasoningTokenCount" =
      some (.int c) := rfl

theorem lookup_basePayload_cacheReadTokenCount (s : String) (isS : Bool)
    (a b c d tot : Int) (m g : String) (r1 r2 r3 : Int) (p : String) :
    (basePayload s isS a b c d tot m g r1 r2 r3 p).lookup "cacheReadTokenCount" =
      some (.int d) := rfl

theorem lookup_basePayload_transactionId (s : String) (isS : Bool) (a b c d tot : Int)
    (m g : String) (r1 r2 r3 : Int) (p : String) :
    (basePayload s isS a b c d tot m g r1 r2 r3 p).lookup "transactionId" =
      some (.str g) := rfl

theorem lookup_basePayload_attributes (s : String) (isS : Bool) (a b c d tot : Int)
    (m g : String) (r1 r2 r3 : Int) (p : String) :
    (basePayload s isS a b c d tot m g r1 r2 r3 p).lookup "attributes" = none := rfl

/-- `int32wrap` is the identity on values in the `int32` range. -/
theorem int32wrap_eq_self (n : Int) (h1 : -(2 ^ 31) ≤ n) (h2 : n < 2 ^ 31) :
    int32wrap n = n := by
  unfold int32wrap
  omega

/-- C6 (amended): when the usage block reports a zero total token count, the
payload's `totalTokenCount` is the 32-bit two's-complement sum of prompt and
candidate tokens (Go adds two `int32` fields), which equals their exact sum
whenever that sum fits in `int32`; and when the response or its usage block is
absent, the `inputTokenCount`, `outputTokenCount`, `totalTokenCount`,
`cacheReadTokenCount` and `reasoningTokenCount` payload fields are all zero. -/
theorem totalTokenCount_rule (genId model provider : String)
    (metadata : List (String × GoVal)) (isStreamed : Bool) (t1 t2 t3 : Int)
    (config : Option GenConfig) (err : Option String) :
    (∀ (cands : List (Option Candidate)) (u : UsageMetadata),
      u.totalTokenCount = 0 →
      (buildGoogleMeteringPayloadWithTiming genId (some ⟨cands, some u⟩) model metadata
          isStreamed t1 t2 t3 provider config err).lookup "totalTokenCount" =
        some (.int (int32wrap (u.promptTokenCount + u.candidatesTokenCount)))) ∧
    (∀ (cands : List (Option Candidate)) (u : UsageMetadata),
      u.totalTokenCount = 0 →
      -(2 ^ 31) ≤ u.promptTokenCount + u.candidatesTokenCount →
      u.promptTokenCount + u.candidatesTokenCount < 2 ^ 31 →
      (buildGoogleMeteringPayloadWithTiming genId (some ⟨cands, some u⟩) model metadata
          isStreamed t1 t2 t3 provider config err).lookup "totalTokenCount" =
        some (.int (u.promptTokenCount + u.candidatesTokenCount))) ∧
    (∀ k, k ∈ (["inputTokenCount", "outputTokenCount", "totalTokenCount",
        "cacheReadTokenCount", "reasoningTokenCount"] : List String) →
      (buildGoogleMeteringPayloadWithTiming genId none model metadata isStreamed
          t1 t2 t3 provider config err).lookup k = some (.int 0)) ∧
    (∀ (cands : List (Option Candidate)) (k : String),
      k ∈ (["inputTokenCount", "outputTokenCount", "totalTokenCount",
        "cacheReadTokenCount", "reasoningTokenCount"] : List String) →
      (buildGoogleMeteringPayloadWithTiming genId (some ⟨cands, none⟩) model metadata
          isStreamed t1 t2 t3 provider config err).lookup k = some (.int 0)) := by
  refine ⟨?_, ?_, ?_, ?_⟩
  · intro cands u h
    rw [lookup_build _ _ _ _ _ _ _ _ _ _ _ _ (by decide) (by decide) (by decide),
      lookup_basePayload_totalTokenCount]
    simp [usageOf, totalTokensOf, h]
  · intro cands u h h1 h2
    rw [lookup_build _ _ _ _ _ _ _ _ _ _ _ _ (by decide) (by decide) (by decide),
      lookup_basePayload_totalTokenCount]
    simp [usageOf, totalTokensOf, h, int32wrap_eq_self _ h1 h2]
  · intro k hk
    fin_cases hk <;>
      · rw [lookup_build _ _ _ _ _ _ _ _ _ _ _ _ (by decide) (by decide) (by decide)]
        rfl
  · intro cands k hk
    fin_cases hk <;>
      · rw [lookup_build _ _ _ _ _ _ _ _ _ _ _ _ (by decide) (by decide) (by decide)]
        rfl

/-- C6 counterexample: with prompt and candidate token counts of `2^30` each
and a zero reported total, the code's `int32` addition overflows, so the
payload's `totalTokenCount` is `-2^31` and not the arithmetic sum
`2^30 + 2^30 = 2^31` the claim states. -/
theorem totalTokenCount_overflow_cex :
    (buildGoogleMeteringPayloadWithTiming "tx-1" (some ⟨[], some ⟨2 ^ 30, 2 ^ 30, 0, 0, 0⟩⟩)
        "gemini-2.0-flash" [] false 0 0 0 "GOOGLE_AI" none none).lookup "totalTokenCount" =
      some (.int (-(2 ^ 31))) ∧
    some (GoVal.int (-(2 ^ 31))) ≠ some (GoVal.int ((2 : Int) ^ 30 + 2 ^ 30)) := by
  constructor
  · rw [lookup_build _ _ _ _ _ _ _ _ _ _ _ _ (by decide) (by decide) (by decide),
      lookup_basePayload_totalTokenCount]
    simp only [usageOf, totalTokensOf]
    norm_num [int32wrap]
  · decide

/-- C6 witness: a response reporting prompt 10, candidates 5 and no total
yields `totalTokenCount = 15`. -/
theorem totalTokenCount_rule_witness :
    (buildGoogleMeteringPayloadWithTiming "tx-1" (some ⟨[], some ⟨10, 5, 0, 0, 0⟩⟩)
        "gemini-2.0-flash" [] false 0 0 0 "GOOGLE_AI" none none).lookup "totalTokenCount" =
      some (.int 15) := by
  have h := (totalTokenCount_rule "tx-1" "gemini-2.0-flash" "GOOGLE_AI" [] false 0 0 0
    none none).2.1 [] ⟨10, 5, 0, 0, 0⟩ rfl (by norm_num) (by norm_num)
  simpa using h

/-- C3 witness: with a configured client and a backend that fails with a
network error on every attempt, the engine makes exactly 3 attempts, sleeps
100ms then 200ms, and returns the terminal metering error wrapping the last
network error. -/
theorem sendMeteringWithRetry_policy_witness :
    sendMeteringWithRetry (some testCfg) [] (fun _ => .netFail "conn refused") =
      ⟨3, [100, 200], [[], [], []],
       .error (.meteringErrorWrap "metering failed after retries" 3
         (.networkError "metering request failed" "conn refused"))⟩ := by
  exact (sendMeteringWithRetry_policy (some testCfg) [] (fun _ => .netFail "conn refused")
    ).2.2.2.2.2.2.2 _ ⟨_, rfl, rfl⟩ ⟨_, rfl, rfl⟩ rfl rfl

/-- C8 (amended): the payload's `transactionId` is the freshly generated id
produced at payload-build time whenever the caller-supplied metadata carries no
`transactionId` key; a caller-supplied `transactionId` in metadata replaces it;
and the retry engine re-sends the identical payload value on every attempt
(one build per dispatch, never a rebuild between retries). -/
theorem transactionId_rule (genId : String) (resp : Option GenResponse)
    (model provider : String) (metadata : List (String × GoVal)) (isStreamed : Bool)
    (t1 t2 t3 : Int) (config : Option GenConfig) (err : Option String)
    (cfg : Option Config) (payload : List (String × GoVal)) (outs : Nat → Attempt) :
    (metadata.lookup "transactionId" = none →
      (buildGoogleMeteringPayloadWithTiming genId resp model metadata isStreamed
          t1 t2 t3 provider config err).lookup "transactionId" = some (.str genId)) ∧
    (∀ v, metadata.lookup "transactionId" = some v →
      (buildGoogleMeteringPayloadWithTiming genId resp model metadata isStreamed
          t1 t2 t3 provider config err).lookup "transactionId" = some v) ∧
    (sendMeteringWithRetry cfg payload outs).sent =
      List.replicate (sendMeteringWithRetry cfg payload outs).attemptsMade payload := by
  refine ⟨?_, ?_, (retry_trace_shape cfg payload outs).2.2⟩
  · intro h
    unfold buildGoogleMeteringPayloadWithTiming applyMeta
    dsimp only
    rw [lookup_foldCopy_none _ _ _ _ h, lookup_temperatureStep_ne _ _ _ (by decide),
      lookup_errorReasonStep_ne _ _ _ (by decide), lookup_basePayload_transactionId]
  · intro v h
    unfold buildGoogleMeteringPayloadWithTiming applyMeta
    dsimp only
    exact lookup_foldCopy_some _ _ _ _ _ h (by decide)

/-- C8 counterexample: a caller that puts `transactionId` into the call
metadata overrides the freshly generated id — the built payload carries the
caller's value, not the fresh `"fresh-1"`, refuting the claim that the
transaction id is always the freshly generated one. -/
theorem transactionId_override_cex :
    (buildGoogleMeteringPayloadWithTiming "fresh-1" none "gemini-2.0-flash"
        [("transactionId", .str "caller-id")] false 0 0 0 "GOOGLE_AI" none
        none).lookup "transactionId" = some (.str "caller-id") ∧
    some (GoVal.str "caller-id") ≠ some (GoVal.str "fresh-1") := by
  constructor
  · unfold buildGoogleMeteringPayloadWithTiming applyMeta
    dsimp only
    exact lookup_foldCopy_some _ _ _ _ _ rfl (by decide)
  · decide

/-- C8 witness: with no caller metadata the payload's transaction id is the
freshly generated one, and three attempts of a failing delivery all send the
identical payload. -/
theorem transactionId_rule_witness :
    (buildGoogleMeteringPayloadWithTiming "fresh-1" none "gemini-2.0-flash" [] false
        0 0 0 "GOOGLE_AI" none none).lookup "transactionId" = some (.str "fresh-1") ∧
    (sendMeteringWithRetry (some testCfg) [("model", .str "m")]
        (fun _ => .netFail "down")).sent =
      List.replicate (sendMeteringWithRetry (some testCfg) [("model", .str "m")]
        (fun _ => .netFail "down")).attemptsMade [("model", .str "m")] := by
  have h := transactionId_rule "fresh-1" none "gemini-2.0-flash" "GOOGLE_AI" [] false
    0 0 0 none none (some testCfg) [("model", .str "m")] (fun _ => .netFail "down")
  exact ⟨h.1 rfl, h.2.2⟩

/-- C9: `DetectVisionContent` computes exactly the stats the claim states for
the request with one inline `image/png` part of 1024 bytes, and
`BuildVisionAttributes` would nest them under an attributes map — but the chat
payload builder never receives the request contents and produces no
`attributes` key at all, for any arguments whatsoever, so the stats are never
attached to the chat metering payload (the repository's vision example
nevertheless documents that they are). -/
theorem visionStats_computed_but_never_attached :
    DetectVisionContent (some pngContents) = ⟨true, 1, 1024, ["image/png"]⟩ ∧
    BuildVisionAttributes ⟨true, 1, 1024, ["image/png"]⟩ =
      some [("vision_image_count", .int 1), ("vision_total_size_bytes", .int 1024),
            ("vision_media_types", .str "image/png")] ∧
    (∀ (genId : String) (resp : Option GenResponse) (model : String)
      (metadata : List (String × GoVal)) (isStreamed : Bool) (t1 t2 t3 : Int)
      (provider : String) (config : Option GenConfig) (err : Option String),
      (buildGoogleMeteringPayloadWithTiming genId resp model metadata isStreamed
          t1 t2 t3 provider config err).lookup "attributes" = none) := by
  refine ⟨by rfl, by rfl, ?_⟩
  intro genId resp model metadata isStreamed t1 t2 t3 provider config err
  rw [lookup_build _ _ _ _ _ _ _ _ _ _ _ _ (by decide) (by decide) (by decide),
    lookup_basePayload_attributes]

/-- Every dispatch the stream wrapper makes without a stream error carries a
response rebuilt from the accumulated usage only: no candidates at all. -/
theorem runStreamAux_err_none_resp (events : List StreamItem) (f : Nat → Bool)
    (i : Nat) (lu : Option UsageMetadata) (d : MeterDispatch)
    (hd : d ∈ runStreamAux events f i lu) (he : d.err = none) :
    ∃ u, d.resp = some ⟨[], some u⟩ ∧ d.isStreamed = true := by
  induction events generalizing i lu with
  | nil =>
    cases lu with
    | none => cases hd
    | some u =>
      simp only [runStreamAux, List.mem_singleton] at hd
      subst hd
      exact ⟨u, rfl, rfl⟩
  | cons item rest ih =>
    cases item with
    | failure e =>
      cases lu with
      | none =>
        simp only [runStreamAux, List.mem_singleton] at hd
        subst hd
        cases he
      | some u =>
        simp only [runStreamAux, List.mem_singleton] at hd
        subst hd
        cases he
    | chunk r =>
      simp only [runStreamAux] at hd
      by_cases hf : f i
      · rw [if_pos hf] at hd
        exact ih _ _ hd
      · rw [if_neg hf] at hd
        cases hlu : (match r.usageMetadata with
          | some u => some u
          | none => lu : Option UsageMetadata) with
        | none => rw [hlu] at hd; cases hd
        | some u =>
          rw [hlu] at hd
          simp only [List.mem_singleton] at hd
          subst hd
          exact ⟨u, rfl, rfl⟩

/-- C10: every metering dispatch a wrapped stream makes without a stream error
builds its payload from a response holding only the accumulated usage metadata
and no candidates, so finish-reason extraction yields the empty string, the
mapper falls back to the default, and the payload's `stopReason` is `"END"` —
whatever finish reason (MAX_TOKENS, SAFETY, ...) the chunks actually
reported. -/
theorem streaming_payload_stopReason_END (events : List StreamItem) (f : Nat → Bool)
    (d : MeterDispatch) (genId model : String) (metadata : List (String × GoVal))
    (t1 t2 t3 : Int) (provider : String) (config : Option GenConfig)
    (hd : d ∈ runStream events f) (he : d.err = none) :
    (buildGoogleMeteringPayloadWithTiming genId d.resp model metadata d.isStreamed
        t1 t2 t3 provider config none).lookup "stopReason" = some (.str "END") := by
  obtain ⟨u, hresp, -⟩ := runStreamAux_err_none_resp events f 0 none d hd he
  rw [lookup_build _ _ _ _ _ _ _ _ _ _ _ _ (by decide) (by decide) (by decide),
    lookup_basePayload_stopReason, hresp]
  rfl

/-- C10 witness: a stream whose only chunk reports finish reason MAX_TOKENS
still yields a payload with `stopReason = "END"` for its (error-free)
dispatch. -/
theorem streaming_payload_stopReason_END_witness :
    (buildGoogleMeteringPayloadWithTiming "tx-1"
        (some ⟨[], some ⟨10, 5, 15, 0, 0⟩⟩) "gemini-2.0-flash" [] true 0 0 0
        "GOOGLE_AI" none none).lookup "stopReason" = some (.str "END") := by
  have hd : (⟨some ⟨[], some ⟨10, 5, 15, 0, 0⟩⟩, true, none⟩ : MeterDispatch) ∈
      runStream [.chunk ⟨[some ⟨"MAX_TOKENS"⟩], some ⟨10, 5, 15, 0, 0⟩⟩]
        (fun _ => true) := by
    simp [runStream, runStreamAux]
  exact streaming_payload_stopReason_END _ _ _ "tx-1" "gemini-2.0-flash" [] 0 0 0
    "GOOGLE_AI" none hd rfl

/-- The wrapper never dispatches more than one metering task per stream. -/
theorem runStreamAux_length_le_one (events : List StreamItem) (f : Nat → Bool)
    (i : Nat) (lu : Option UsageMetadata) :
    (runStreamAux events f i lu).length ≤ 1 := by
  induction events generalizing i lu with
  | nil =>
    cases lu <;> simp [runStreamAux]
  | cons item rest ih =>
    cases item with
    | failure e => cases lu <;> simp [runStreamAux]
    | chunk r =>
      simp only [runStreamAux]
      by_cases hf : f i
      · rw [if_pos hf]
        exact ih _ _
      · rw [if_neg hf]
        cases (match r.usageMetadata with
          | some u => some u
          | none => lu : Option UsageMetadata) <;> simp

/-- The dispatch list is fully determined by how the loop terminates: one
dispatch carrying the accumulated usage (and the error, if the loop ended on
one), except on an error-free end without any accumulated usage, where nothing
is dispatched. -/
theorem runStreamAux_eq_outcome (events : List StreamItem) (f : Nat → Bool) :
    ∀ (i : Nat) (lu : Option UsageMetadata),
      runStreamAux events f i lu =
        (match streamOutcome events f i lu with
         | (some e, some u) => [⟨some ⟨[], some u⟩, true, some e⟩]
         | (some e, none) => [⟨none, true, some e⟩]
         | (none, some u) => [⟨some ⟨[], some u⟩, true, none⟩]
         | (none, none) => []) := by
  induction events with
  | nil =>
    intro i lu
    cases lu <;> simp [runStreamAux, streamOutcome]
  | cons item rest ih =>
    intro i lu
    cases item with
    | failure e => cases lu <;> simp [runStreamAux, streamOutcome]
    | chunk r =>
      simp only [runStreamAux, streamOutcome]
      cases hu : r.usageMetadata with
      | none =>
        cases hf : f i with
        | true => simpa using ih (i + 1) lu
        | false => cases lu <;> simp
      | some u =>
        cases hf : f i with
        | true => simpa using ih (i + 1) (some u)
        | false => simp

/-- C1 (amended): however the wrapped stream terminates — exhaustion of the
underlying iterator after any number of chunks, the consumer's yield returning
false at any chunk, or a mid-stream error at any point — at most one background
metering dispatch is made, and exactly one precisely when usage metadata was
observed before termination or the loop ended on a mid-stream error
(`streamOutcome` records the terminal error and the usage accumulated at
termination): an error-terminated run dispatches once, with the accumulated
usage if any; an error-free run whose accumulated usage is non-empty (normal
exhaustion or early stop, at any chunk) dispatches exactly once with that
usage; and an error-free run that never observed usage — such as the empty
stream — dispatches nothing at all. -/
theorem stream_dispatch_once (events : List StreamItem) (f : Nat → Bool) :
    (runStream events f).length ≤ 1 ∧
    ((streamOutcome events f 0 none).1 ≠ none ∨
        (streamOutcome events f 0 none).2 ≠ none →
      (runStream events f).length = 1) ∧
    (∀ e u, streamOutcome events f 0 none = (some e, u) →
      runStream events f =
        [⟨u.map (fun v => (⟨[], some v⟩ : GenResponse)), true, some e⟩]) ∧
    (∀ u, streamOutcome events f 0 none = (none, some u) →
      runStream events f = [⟨some ⟨[], some u⟩, true, none⟩]) ∧
    (streamOutcome events f 0 none = (none, none) → runStream events f = []) := by
  have h : runStream events f =
      (match streamOutcome events f 0 none with
       | (some e, some u) => [⟨some ⟨[], some u⟩, true, some e⟩]
       | (some e, none) => [⟨none, true, some e⟩]
       | (none, some u) => [⟨some ⟨[], some u⟩, true, none⟩]
       | (none, none) => []) := runStreamAux_eq_outcome events f 0 none
  refine ⟨?_, ?_, ?_, ?_, ?_⟩
  · exact runStreamAux_length_le_one events f 0 none
  · intro hor
    rcases ho : streamOutcome events f 0 none with ⟨o1, o2⟩
    rw [ho] at h hor
    clear ho
    cases o1 <;> cases o2 <;> simp_all
  · intro e u heq
    rw [heq] at h
    cases u with
    | none => simpa using h
    | some v => simpa using h
  · intro u heq
    rw [heq] at h
    simpa using h
  · intro heq
    rw [heq] at h
    simpa using h

/-- C1 counterexample: a stream that terminates by normal exhaustion without
ever producing usage metadata — here the empty stream, fully consumed — makes
zero metering dispatches, not the exactly one the claim requires. -/
theorem stream_dispatch_once_cex :
    (runStream [] (fun _ => true)).length = 0 ∧ (0 : Nat) ≠ 1 := by
  exact ⟨rfl, by decide⟩

/-- C1 witness: a three-chunk stream consumed to exhaustion with usage observed
dispatches exactly once with the last accumulated usage; consuming only the
first of five chunks then stopping dispatches exactly once with that chunk's
usage; a stop at the second chunk dispatches once with the second chunk's
usage; a mid-stream error after a usage-carrying chunk dispatches once with the
accumulated usage and the error; a two-chunk exhausted stream with usage makes
exactly one dispatch; and a yielded chunk without usage followed by exhaustion
dispatches nothing. -/
theorem stream_dispatch_once_witness :
    runStream [.chunk ⟨[], some ⟨10, 2, 12, 0, 0⟩⟩, .chunk ⟨[], none⟩,
        .chunk ⟨[], some ⟨10, 7, 17, 0, 0⟩⟩] (fun _ => true) =
      [⟨some ⟨[], some ⟨10, 7, 17, 0, 0⟩⟩, true, none⟩] ∧
    runStream
      [.chunk ⟨[], some ⟨10, 2, 12, 0, 0⟩⟩, .chunk ⟨[], some ⟨10, 4, 14, 0, 0⟩⟩,
       .chunk ⟨[], some ⟨10, 6, 16, 0, 0⟩⟩, .chunk ⟨[], some ⟨10, 8, 18, 0, 0⟩⟩,
       .chunk ⟨[], some ⟨10, 10, 20, 0, 0⟩⟩] (fun _ => false) =
      [⟨some ⟨[], some ⟨10, 2, 12, 0, 0⟩⟩, true, none⟩] ∧
    runStream [.chunk ⟨[], some ⟨10, 2, 12, 0, 0⟩⟩,
        .chunk ⟨[], some ⟨10, 4, 14, 0, 0⟩⟩, .chunk ⟨[], some ⟨10, 6, 16, 0, 0⟩⟩]
        (fun i => i == 0) =
      [⟨some ⟨[], some ⟨10, 4, 14, 0, 0⟩⟩, true, none⟩] ∧
    runStream [.chunk ⟨[], some ⟨10, 2, 12, 0, 0⟩⟩, .failure "upstream reset"]
        (fun _ => true) =
      [⟨some ⟨[], some ⟨10, 2, 12, 0, 0⟩⟩, true, some "upstream reset"⟩] ∧
    (runStream [.chunk ⟨[], some ⟨10, 2, 12, 0, 0⟩⟩, .chunk ⟨[], none⟩]
        (fun _ => true)).length = 1 ∧
    runStream [.chunk ⟨[], none⟩] (fun _ => true) = [] := by
  refine ⟨?_, ?_, ?_, ?_, ?_, ?_⟩
  · exact (stream_dispatch_once _ _).2.2.2.1 ⟨10, 7, 17, 0, 0⟩ (by decide)
  · exact (stream_dispatch_once _ _).2.2.2.1 ⟨10, 2, 12, 0, 0⟩ (by decide)
  · exact (stream_dispatch_once _ _).2.2.2.1 ⟨10, 4, 14, 0, 0⟩ (by decide)
  · exact (stream_dispatch_once _ _).2.2.1 "upstream reset"
      (some ⟨10, 2, 12, 0, 0⟩) (by decide)
  · exact (stream_dispatch_once _ _).2.1 (Or.inr (by decide))
  · exact (stream_dispatch_once _ _).2.2.2.2 (by decide)

/-! ### UTF-8 truncation lemmas (for C4) -/

theorem isCont_true_of_range (b : Nat) (h1 : 0x80 ≤ b) (h2 : b ≤ 0xBF) :
    isCont b = true := by
  have h : ∀ x, x < 0xC0 → 0x80 ≤ x → isCont x = true := by decide
  exact h b (by omega) h1

theorem isCont_false_of_ascii (b : Nat) (h : b < 0x80) : isCont b = false := by
  have hx : ∀ x, x < 0x80 → isCont x = false := by decide
  exact hx b h

theorem isCont_false_of_lead (b : Nat) (h1 : 0xC2 ≤ b) (h2 : b ≤ 0xF4) :
    isCont b = false := by
  have hx : ∀ x, x < 0xF5 → 0xC2 ≤ x → isCont x = false := by decide
  exact hx b (by omega) h1

theorem utf8Char_ne_nil (c : List Nat) (hc : Utf8Char c) : c ≠ [] := by
  intro h
  subst h
  simp [Utf8Char] at hc

/-- The four admissible lead-byte ranges, as a disjunction usable by `omega`. -/
theorem utf8Char_head_range (b : Nat) (t : List Nat) (hc : Utf8Char (b :: t)) :
    (b < 0x80 ∧ t.length = 0) ∨ (0xC2 ≤ b ∧ b ≤ 0xDF ∧ t.length = 1) ∨
    (0xE0 ≤ b ∧ b ≤ 0xEF ∧ t.length = 2) ∨ (0xF0 ≤ b ∧ b ≤ 0xF4 ∧ t.length = 3) := by
  rcases t with _ | ⟨b1, _ | ⟨b2, _ | ⟨b3, _ | t⟩⟩⟩
  · exact Or.inl ⟨hc, rfl⟩
  · exact Or.inr (Or.inl ⟨hc.1, hc.2.1, rfl⟩)
  · refine Or.inr (Or.inr (Or.inl ?_))
    obtain ⟨hd, -⟩ := hc
    rcases hd with ⟨heq, -⟩ | ⟨h1, h2, -⟩ | ⟨heq, -⟩ | ⟨h1, h2, -⟩ <;>
      exact ⟨by omega, by omega, rfl⟩
  · refine Or.inr (Or.inr (Or.inr ?_))
    obtain ⟨hd, -⟩ := hc
    rcases hd with ⟨heq, -⟩ | ⟨h1, h2, -⟩ | ⟨heq, -⟩ <;> exact ⟨by omega, by omega, rfl⟩
  · exact absurd hc (by simp [Utf8Char])

theorem utf8Char_length_le (c : List Nat) (hc : Utf8Char c) :
    1 ≤ c.length ∧ c.length ≤ 4 := by
  rcases c with _ | ⟨b, t⟩
  · exact absurd hc (by simp [Utf8Char])
  · rcases utf8Char_head_range b t hc with ⟨-, h⟩ | ⟨-, -, h⟩ | ⟨-, -, h⟩ | ⟨-, -, h⟩ <;>
      simp [h]

theorem utf8Char_head_not_cont (b : Nat) (t : List Nat) (hc : Utf8Char (b :: t)) :
    isCont b = false := by
  rcases utf8Char_head_range b t hc with ⟨h, -⟩ | ⟨h1, h2, -⟩ | ⟨h1, h2, -⟩ | ⟨h1, h2, -⟩
  · exact isCont_false_of_ascii b h
  · exact isCont_false_of_lead b (by omega) (by omega)
  · exact isCont_false_of_lead b (by omega) (by omega)
  · exact isCont_false_of_lead b (by omega) (by omega)

theorem utf8Char_tail_range (b : Nat) (t : List Nat) (hc : Utf8Char (b :: t)) :
    ∀ x ∈ t, 0x80 ≤ x ∧ x ≤ 0xBF := by
  rcases t with _ | ⟨b1, _ | ⟨b2, _ | ⟨b3, _ | t⟩⟩⟩
  · simp
  · intro x hx
    simp only [List.mem_singleton] at hx
    subst hx
    exact ⟨hc.2.2.1, hc.2.2.2⟩
  · intro x hx
    obtain ⟨hd, h2a, h2b⟩ := hc
    have hb1 : 0x80 ≤ b1 ∧ b1 ≤ 0xBF := by
      rcases hd with ⟨-, ha, hb⟩ | ⟨-, -, ha, hb⟩ | ⟨-, ha, hb⟩ | ⟨-, -, ha, hb⟩ <;>
        exact ⟨by omega, by omega⟩
    simp only [List.mem_cons, List.not_mem_nil, or_false] at hx
    rcases hx with rfl | rfl
    · exact hb1
    · exact ⟨h2a, h2b⟩
  · intro x hx
    obtain ⟨hd, h2a, h2b, h3a, h3b⟩ := hc
    have hb1 : 0x80 ≤ b1 ∧ b1 ≤ 0xBF := by
      rcases hd with ⟨-, ha, hb⟩ | ⟨-, -, ha, hb⟩ | ⟨-, ha, hb⟩ <;>
        exact ⟨by omega, by omega⟩
    simp only [List.mem_cons, List.not_mem_nil, or_false] at hx
    rcases hx with rfl | rfl | rfl
    · exact hb1
    · exact ⟨h2a, h2b⟩
    · exact ⟨h3a, h3b⟩
  · exact absurd hc (by simp [Utf8Char])

theorem utf8Char_length_eq (b : Nat) (t : List Nat) (hc : Utf8Char (b :: t)) :
    (b :: t).length = leadLen b := by
  rcases utf8Char_head_range b t hc with ⟨h1, h⟩ | ⟨h1, h2, h⟩ | ⟨h1, h2, h⟩ | ⟨h1, h2, h⟩ <;>
    · simp only [List.length_cons, leadLen, h]
      split_ifs <;> omega

theorem utf8Char_append_inj (c c' x x' : List Nat) (hc : Utf8Char c)
    (hc' : Utf8Char c') (h : c ++ x = c' ++ x') : c = c' ∧ x = x' := by
  obtain ⟨b, t, rfl⟩ : ∃ b t, c = b :: t := by
    cases c with
    | nil => exact absurd hc (by simp [Utf8Char])
    | cons b t => exact ⟨b, t, rfl⟩
  obtain ⟨b', t', rfl⟩ : ∃ b t, c' = b :: t := by
    cases c' with
    | nil => exact absurd hc' (by simp [Utf8Char])
    | cons b t => exact ⟨b, t, rfl⟩
  have hb : b = b' := by
    simpa using congrArg (fun l => l.headD 0) h
  subst hb
  have hlen : (b :: t).length = (b :: t').length := by
    rw [utf8Char_length_eq b t hc, utf8Char_length_eq b t' hc']
  exact List.append_inj h hlen

theorem isB_inv (s : List Nat) (r : Nat) (h : IsB s r) :
    r = 0 ∨ ∃ c rest p, Utf8Char c ∧ IsB rest p ∧ s = c ++ rest ∧ r = c.length + p := by
  cases h with
  | zero => exact Or.inl rfl
  | step c rest p hc hp => exact Or.inr ⟨c, rest, p, hc, hp, rfl, rfl⟩

theorem isB_append_inv (c rest : List Nat) (r : Nat) (hc : Utf8Char c)
    (h : IsB (c ++ rest) r) : r = 0 ∨ ∃ p, IsB rest p ∧ r = c.length + p := by
  rcases isB_inv _ _ h with rfl | ⟨c', rest', p, hc', hp, heq, rfl⟩
  · exact Or.inl rfl
  · obtain ⟨rfl, rfl⟩ := utf8Char_append_inj c' c rest' rest hc' hc heq.symm
    exact Or.inr ⟨p, hp, rfl⟩

theorem isB_take (s : List Nat) (p : Nat) (h : IsB s p) :
    ∃ a b, s = a ++ b ∧ a.length = p ∧ Utf8V a := by
  induction h with
  | zero s => exact ⟨[], s, rfl, rfl, .nil⟩
  | step c rest p hc hp ih =>
    obtain ⟨a, b, rfl, rfl, ha⟩ := ih
    exact ⟨c ++ a, b, by rw [List.append_assoc], by simp [List.length_append],
      .cons c a hc ha⟩

theorem isB_le_length (s : List Nat) (p : Nat) (h : IsB s p) : p ≤ s.length := by
  induction h with
  | zero s => exact Nat.zero_le _
  | step c rest p hc hp ih => simp only [List.length_append]; omega

theorem utf8V_append (a b : List Nat) (ha : Utf8V a) (hb : Utf8V b) :
    Utf8V (a ++ b) := by
  induction ha with
  | nil => exact hb
  | cons c rest hc hrest ih =>
    rw [List.append_assoc]
    exact .cons c _ hc ih

theorem utf8V_ascii (l : List Nat) (h : ∀ b ∈ l, b < 0x80) : Utf8V l := by
  induction l with
  | nil => exact .nil
  | cons b t ih =>
    have hb : Utf8Char [b] := h b (List.mem_cons_self b t)
    have ht : Utf8V t := ih fun x hx => h x (List.mem_cons_of_mem b hx)
    exact .cons [b] t hb ht

theorem utf8V_length_isB (s : List Nat) (h : Utf8V s) : IsB s s.length := by
  induction h with
  | nil => exact .zero []
  | cons c rest hc hrest ih =>
    have := IsB.step c rest rest.length hc ih
    simpa [List.length_append] using this

/-- A well-formed character at the head is recognized with its exact length. -/
theorem utf8CharLenB_of_char (c rest : List Nat) (hc : Utf8Char c) :
    utf8CharLenB (c ++ rest) = some c.length := by
  rcases c with _ | ⟨b0, _ | ⟨b1, _ | ⟨b2, _ | ⟨b3, _ | t⟩⟩⟩⟩
  · exact absurd hc (by simp [Utf8Char])
  · have hb : b0 < 0x80 := hc
    simp only [List.cons_append, List.nil_append, utf8CharLenB]
    rw [if_pos hb]
    rfl
  · obtain ⟨h1, h2, h3, h4⟩ := hc
    simp only [List.cons_append, List.nil_append, utf8CharLenB]
    rw [if_neg (by omega), if_pos (by exact ⟨h1, h2⟩)]
    rw [if_pos (by exact ⟨h3, h4⟩)]
    rfl
  · obtain ⟨hd, h3, h4⟩ := hc
    have hb0 : 0xE0 ≤ b0 ∧ b0 ≤ 0xEF := by
      rcases hd with ⟨heq, -⟩ | ⟨ha, hb, -⟩ | ⟨heq, -⟩ | ⟨ha, hb, -⟩ <;>
        exact ⟨by omega, by omega⟩
    have hb1 : (if b0 = 0xE0 then 0xA0 else 0x80) ≤ b1 ∧
        b1 ≤ (if b0 = 0xED then 0x9F else 0xBF) := by
      rcases hd with ⟨heq, ha, hb⟩ | ⟨ha, hb, hx, hy⟩ | ⟨heq, ha, hb⟩ | ⟨ha, hb, hx, hy⟩ <;>
        constructor <;> split_ifs <;> omega
    simp only [List.cons_append, List.nil_append, utf8CharLenB]
    rw [if_neg (by omega), if_neg (by omega), if_pos (by omega)]
    rw [if_pos (by exact ⟨hb1, h3, h4⟩)]
    rfl
  · obtain ⟨hd, h3, h4, h5, h6⟩ := hc
    have hb0 : 0xF0 ≤ b0 ∧ b0 ≤ 0xF4 := by
      rcases hd with ⟨heq, -⟩ | ⟨ha, hb, -⟩ | ⟨heq, -⟩ <;> exact ⟨by omega, by omega⟩
    have hb1 : (if b0 = 0xF0 then 0x90 else 0x80) ≤ b1 ∧
        b1 ≤ (if b0 = 0xF4 then 0x8F else 0xBF) := by
      rcases hd with ⟨heq, ha, hb⟩ | ⟨ha, hb, hx, hy⟩ | ⟨heq, ha, hb⟩ <;>
        constructor <;> split_ifs <;> omega
    simp only [List.cons_append, List.nil_append, utf8CharLenB]
    rw [if_neg (by omega), if_neg (by omega), if_neg (by omega), if_pos (by omega)]
    rw [if_pos (by exact ⟨hb1, h3, h4, h5, h6⟩)]
    rfl
  · exact absurd hc (by simp [Utf8Char])

/-- Soundness of the executable validator against the inductive validity:
the branch `utf8.ValidString` takes in `truncateUTF8Safe` accepts every
well-formed concatenation of characters. -/
theorem utf8ValidB_of_utf8V (s : List Nat) (h : Utf8V s) : utf8ValidB s = true := by
  induction h with
  | nil => simp [utf8ValidB]
  | cons c rest hc hrest ih =>
    obtain ⟨b, t, rfl⟩ : ∃ b t, c = b :: t := by
      cases c with
      | nil => exact absurd hc (by simp [Utf8Char])
      | cons b t => exact ⟨b, t, rfl⟩
    have hn := utf8CharLenB_of_char (b :: t) rest hc
    simp only [List.cons_append] at hn ⊢
    rw [utf8ValidB, hn]
    simp only [List.length_cons, Nat.add_sub_cancel]
    rw [show (t ++ rest).drop t.length = rest from List.drop_left t rest]
    exact ih

theorem backUp_le (s : List Nat) (p : Nat) : backUp s p ≤ p := by
  induction p with
  | zero => exact Nat.le_refl 0
  | succ p ih =>
    simp only [backUp]
    split_ifs with h1 h2
    · exact Nat.le_trans ih (Nat.le_succ p)
    · exact Nat.le_refl _
    · exact Nat.le_refl _

theorem backUp_zero_of_lt (c rest : List Nat) (hc : Utf8Char c) :
    ∀ p, p < c.length → backUp (c ++ rest) p = 0 := by
  intro p
  induction p with
  | zero => intro _; rfl
  | succ p ih =>
    intro hlt
    obtain ⟨b, t, rfl⟩ : ∃ b t, c = b :: t := by
      cases c with
      | nil => exact absurd hc (by simp [Utf8Char])
      | cons b t => exact ⟨b, t, rfl⟩
    have hl : p + 1 < ((b :: t) ++ rest).length := by
      simp only [List.length_append]
      omega
    have hget : ((b :: t) ++ rest).get ⟨p + 1, hl⟩ = t.get ⟨p, by
        simp only [List.length_cons] at hlt; omega⟩ := by
      simp only [List.get_eq_getElem]
      rw [List.getElem_append_left (by simp only [List.length_cons] at hlt ⊢; omega)]
      simp
    have hcont : isCont (((b :: t) ++ rest).get ⟨p + 1, hl⟩) = true := by
      rw [hget]
      have hmem : t.get ⟨p, by simp only [List.length_cons] at hlt; omega⟩ ∈ t :=
        List.get_mem t _ _
      obtain ⟨ha, hb⟩ := utf8Char_tail_range b t hc _ hmem
      exact isCont_true_of_range _ ha hb
    simp only [backUp, dif_pos hl, hcont, if_pos]
    exact ih (by omega)

theorem backUp_shift (c rest : List Nat) (hc : Utf8Char c) (hrest : Utf8V rest) :
    ∀ q, backUp (c ++ rest) (c.length + q) = c.length + backUp rest q := by
  intro q
  induction q with
  | zero =>
    obtain ⟨b, t, rfl⟩ : ∃ b t, c = b :: t := by
      cases c with
      | nil => exact absurd hc (by simp [Utf8Char])
      | cons b t => exact ⟨b, t, rfl⟩
    show backUp ((b :: t) ++ rest) (t.length + 1) = (b :: t).length + backUp rest 0
    cases hrest with
    | nil =>
      have hnl : ¬ t.length + 1 < ((b :: t) ++ []).length := by
        simp
      simp only [backUp, dif_neg hnl]
      rfl
    | cons c' rest' hc' hrest' =>
      obtain ⟨b', t', rfl⟩ : ∃ x y, c' = x :: y := by
        cases c' with
        | nil => exact absurd hc' (by simp [Utf8Char])
        | cons x y => exact ⟨x, y, rfl⟩
      have hl : t.length + 1 < ((b :: t) ++ (b' :: t') ++ rest').length := by
        simp only [List.length_append, List.length_cons]
        omega
      have hget : ((b :: t) ++ ((b' :: t') ++ rest')).get ⟨t.length + 1, by
          simpa using hl⟩ = b' := by
        simp only [List.get_eq_getElem]
        rw [List.getElem_append_right (by simp)]
        simp
      have hnc : isCont (((b :: t) ++ ((b' :: t') ++ rest')).get ⟨t.length + 1, by
          simpa using hl⟩) = false := by
        rw [hget]
        exact utf8Char_head_not_cont b' t' hc'
      simp only [backUp, dif_pos (by simpa using hl), hnc]
      simp
  | succ q ih =>
    show backUp (c ++ rest) ((c.length + q) + 1) = c.length + backUp rest (q + 1)
    by_cases hq : q + 1 < rest.length
    · have hl : (c.length + q) + 1 < (c ++ rest).length := by
        simp only [List.length_append]
        omega
      have hget : (c ++ rest).get ⟨(c.length + q) + 1, hl⟩ = rest.get ⟨q + 1, hq⟩ := by
        simp only [List.get_eq_getElem]
        rw [List.getElem_append_right (by omega)]
        congr 1
        omega
      by_cases hcont : isCont (rest.get ⟨q + 1, hq⟩)
      · simp only [backUp, dif_pos hl, hget, hcont, if_pos, dif_pos hq]
        exact ih
      · rw [Bool.not_eq_true] at hcont
        simp only [backUp, dif_pos hl, hget, hcont, dif_pos hq, Bool.false_eq_true,
          if_false]
        omega
    · have hnl : ¬ (c.length + q) + 1 < (c ++ rest).length := by
        simp only [List.length_append]
        omega
      simp only [backUp, dif_neg hnl, dif_neg hq]
      omega

/-- The backup loop of `truncateUTF8Safe`, on valid UTF-8 input, lands on the
last character boundary at or before its starting position, and backs up at
most 3 bytes. -/
theorem backUp_boundary (s : List Nat) (hs : Utf8V s) :
    ∀ p, p ≤ s.length →
      IsB s (backUp s p) ∧ backUp s p ≤ p ∧ p - backUp s p ≤ 3 ∧
      ∀ r, IsB s r → r ≤ p → r ≤ backUp s p := by
  induction hs with
  | nil =>
    intro p hp
    simp only [List.length_nil, Nat.le_zero] at hp
    subst hp
    exact ⟨.zero [], Nat.le_refl 0, by omega, fun r _ hr => hr⟩
  | cons c rest hc hrest ih =>
    intro p hp
    by_cases hlt : p < c.length
    · rw [backUp_zero_of_lt c rest hc p hlt]
      obtain ⟨hc1, hc4⟩ := utf8Char_length_le c hc
      refine ⟨.zero _, Nat.zero_le _, by omega, ?_⟩
      intro r hr hrle
      rcases isB_append_inv c rest r hc hr with rfl | ⟨p', hp', rfl⟩
      · exact Nat.le_refl 0
      · omega
    · push_neg at hlt
      obtain ⟨q, rfl⟩ : ∃ q, p = c.length + q := ⟨p - c.length, by omega⟩
      rw [backUp_shift c rest hc hrest q]
      have hq : q ≤ rest.length := by
        simp only [List.length_append] at hp
        omega
      obtain ⟨hB, hle, hgap, hmax⟩ := ih q hq
      refine ⟨.step c rest _ hc hB, by omega, by omega, ?_⟩
      intro r hr hrle
      rcases isB_append_inv c rest r hc hr with rfl | ⟨p', hp', rfl⟩
      · exact Nat.zero_le _
      · have hp'q : p' ≤ q := by omega
        have := hmax p' hp' hp'q
        omega

/-- On valid input longer than the cut, `truncateUTF8Safe` returns exactly the
prefix up to the backup point without ever entering the rune-iteration
fallback, and that prefix is valid UTF-8 of length `backUp s m`. -/
theorem truncateUTF8Safe_spec (s : List Nat) (hs : Utf8V s) (m : Nat)
    (hm : m < s.length) :
    truncateUTF8Safe s m = s.take (backUp s m) ∧
    Utf8V (s.take (backUp s m)) ∧
    (s.take (backUp s m)).length = backUp s m := by
  have hble : backUp s m ≤ m := backUp_le s m
  have hbd := backUp_boundary s hs m (Nat.le_of_lt hm)
  obtain ⟨a, b, hsplit, hlen, ha⟩ := isB_take s (backUp s m) hbd.1
  have htake : s.take (backUp s m) = a := by
    set k := backUp s m with hk
    rw [hsplit, ← hlen, List.take_left]
  have hvb : utf8ValidB (s.take (backUp s m)) = true := by
    rw [htake]
    exact utf8ValidB_of_utf8V a ha
  refine ⟨?_, htake ▸ ha, ?_⟩
  · unfold truncateUTF8Safe
    rw [if_neg (by omega)]
    simp only [hvb, if_true]
  · rw [List.length_take]
    omega

/-- C4 (amended): for every valid-UTF-8 response text over the 50000-byte
limit, the captured field is the prefix of the text cut at the last valid
character boundary at or before `limit - len(marker)` with the truncation
marker appended; the result is valid UTF-8 (no multi-byte character is split),
its length is at most the limit — exactly the limit when the cut position
itself is a character boundary, and never more than 3 bytes short otherwise —
and the truncation flag is set; text at or under the limit passes through
unchanged with the flag untouched. -/
theorem extractResponseContent_truncation (content : List Nat) (flag : Bool)
    (hv : Utf8V content) :
    (content.length ≤ MaxPromptLength →
      (ExtractResponseContent (some content) flag).outputResponse = content ∧
      (ExtractResponseContent (some content) flag).promptsTruncated = flag) ∧
    (content.length > MaxPromptLength →
      (ExtractResponseContent (some content) flag).outputResponse =
        content.take (backUp content (MaxPromptLength - markerBytes.length)) ++
          markerBytes ∧
      Utf8V (ExtractResponseContent (some content) flag).outputResponse ∧
      (ExtractResponseContent (some content) flag).outputResponse.length ≤
        MaxPromptLength ∧
      MaxPromptLength - 3 ≤
        (ExtractResponseContent (some content) flag).outputResponse.length ∧
      IsB content (backUp content (MaxPromptLength - markerBytes.length)) ∧
      backUp content (MaxPromptLength - markerBytes.length) ≤
        MaxPromptLength - markerBytes.length ∧
      (∀ r, IsB content r → r ≤ MaxPromptLength - markerBytes.length →
        r ≤ backUp content (MaxPromptLength - markerBytes.length)) ∧
      (IsB content (MaxPromptLength - markerBytes.length) →
        (ExtractResponseContent (some content) flag).outputResponse.length =
          MaxPromptLength) ∧
      (ExtractResponseContent (some content) flag).promptsTruncated = true) := by
  have hM : MaxPromptLength = 50000 := rfl
  have hmk : markerBytes.length = 14 := rfl
  constructor
  · intro hle
    by_cases hnil : content = []
    · subst hnil
      exact ⟨rfl, rfl⟩
    · have hstep : ExtractResponseContent (some content) flag =
          ⟨[], [], content, flag⟩ := by
        unfold ExtractResponseContent
        dsimp only
        rw [if_neg hnil, if_neg (by omega)]
      rw [hstep]
      exact ⟨rfl, rfl⟩
  · intro hgt
    have hnil : content ≠ [] := by
      intro h
      subst h
      simp [MaxPromptLength] at hgt
    have hm : MaxPromptLength - markerBytes.length < content.length := by omega
    obtain ⟨heq, hva, hlen⟩ :=
      truncateUTF8Safe_spec content hv (MaxPromptLength - markerBytes.length) hm
    have hbd := backUp_boundary content hv (MaxPromptLength - markerBytes.length)
      (Nat.le_of_lt hm)
    have hble := backUp_le content (MaxPromptLength - markerBytes.length)
    have hstep : ExtractResponseContent (some content) flag =
        ⟨[], [],
         truncateUTF8Safe content (MaxPromptLength - markerBytes.length) ++ markerBytes,
         true⟩ := by
      unfold ExtractResponseContent
      dsimp only
      rw [if_neg hnil, if_pos hgt]
    rw [hstep]
    refine ⟨?_, ?_, ?_, ?_, hbd.1, hble, hbd.2.2.2, ?_, rfl⟩
    · rw [heq]
    · rw [heq]
      exact utf8V_append _ _ hva (utf8V_ascii markerBytes (by decide))
    · rw [heq]
      simp only [List.length_append]
      omega
    · rw [heq]
      simp only [List.length_append]
      have := hbd.2.2.1
      omega
    · intro hIsB
      have h1 := hbd.2.2.2 _ hIsB (Nat.le_refl _)
      have h2 : backUp content (MaxPromptLength - markerBytes.length) =
          MaxPromptLength - markerBytes.length := Nat.le_antisymm hble h1
      rw [heq]
      simp only [List.length_append]
      rw [hlen, h2]
      omega

/-- C4 counterexample: a valid-UTF-8 response text of 50001 bytes whose byte
at the cut position 49986 is the continuation byte of a two-byte character:
the truncated output is 49999 bytes, not exactly the 50000 the claim states. -/
theorem extractResponseContent_exact_length_cex :
    cexContent.length > MaxPromptLength ∧
    (ExtractResponseContent (some cexContent) false).outputResponse.length = 49999 ∧
    (49999 : Nat) ≠ MaxPromptLength := by
  have hlen : cexContent.length = 50001 := by
    show (List.replicate 49985 (97 : Nat) ++ eAcuteTail).length = 50001
    rw [List.length_append, List.length_replicate]
    rfl
  have hL : (List.replicate 49985 (97 : Nat)).length = 49985 :=
    List.length_replicate 49985 97
  have hget169 : ∀ h : 49986 < cexContent.length,
      cexContent.get ⟨49986, h⟩ = 169 := by
    intro h
    show (List.replicate 49985 97 ++ eAcuteTail).get ⟨49986, _⟩ = 169
    simp only [List.get_eq_getElem]
    rw [List.getElem_append_right (by rw [hL]; omega)]
    have hidx : 49986 - (List.replicate 49985 (97 : Nat)).length = 1 := by
      rw [hL]
    simp only [hidx]
    rfl
  have hget195 : ∀ h : 49985 < cexContent.length,
      cexContent.get ⟨49985, h⟩ = 195 := by
    intro h
    show (List.replicate 49985 97 ++ eAcuteTail).get ⟨49985, _⟩ = 195
    simp only [List.get_eq_getElem]
    rw [List.getElem_append_right (by rw [hL])]
    have hidx : 49985 - (List.replicate 49985 (97 : Nat)).length = 0 := by
      rw [hL]
    simp only [hidx]
    rfl
  have hstep2 : backUp cexContent 49985 = 49985 := by
    show backUp cexContent (49984 + 1) = 49985
    rw [backUp]
    rw [dif_pos (by omega), hget195, show isCont 195 = false from by decide]
    simp
  have hb1 : backUp cexContent 49986 = 49985 := by
    show backUp cexContent (49985 + 1) = 49985
    rw [backUp]
    rw [dif_pos (by omega), hget169, show isCont 169 = true from by decide]
    simp only [if_true]
    exact hstep2
  have htake : cexContent.take 49985 = List.replicate 49985 97 := by
    show (List.replicate 49985 97 ++ eAcuteTail).take 49985 = _
    exact List.take_left' hL
  have hvB : utf8ValidB (List.replicate 49985 97) = true :=
    utf8ValidB_of_utf8V _ (utf8V_ascii _ (fun b hb => by
      rw [List.eq_of_mem_replicate hb]; norm_num))
  have htr : truncateUTF8Safe cexContent 49986 = List.replicate 49985 97 := by
    unfold truncateUTF8Safe
    rw [if_neg (by omega)]
    simp only [hb1, htake, hvB, if_true]
  have hnil : cexContent ≠ [] := by
    intro h
    rw [h] at hlen
    simp at hlen
  have hstep : ExtractResponseContent (some cexContent) false =
      ⟨[], [], truncateUTF8Safe cexContent 49986 ++ markerBytes, true⟩ := by
    unfold ExtractResponseContent
    dsimp only
    rw [if_neg hnil, if_pos (by rw [hlen]; norm_num [MaxPromptLength])]
    rfl
  refine ⟨by rw [hlen]; decide, ?_, by decide⟩
  rw [hstep]
  show (truncateUTF8Safe cexContent 49986 ++ markerBytes).length = 49999
  rw [htr, List.length_append, List.length_replicate]
  rfl

/-- C4 witness: a short ASCII response text passes through unchanged with the
truncation flag untouched. -/
theorem extractResponseContent_truncation_witness :
    (ExtractResponseContent (some [97, 98, 99]) false).outputResponse =
      [97, 98, 99] ∧
    (ExtractResponseContent (some [97, 98, 99]) false).promptsTruncated = false := by
  exact (extractResponseContent_truncation [97, 98, 99] false
    (utf8V_ascii _ (by decide))).1 (by norm_num [MaxPromptLength])

/-! ### JSON serialization lemmas (for C5) -/

theorem utf8Encode_length (r : Nat) : (utf8Encode r).length = runeLen r := by
  unfold utf8Encode runeLen
  split_ifs <;> simp

theorem runesTake_length_le (runes : List Nat) (m : Nat) :
    ∀ acc : List Nat, acc.length ≤ m → (runesTake runes m acc).length ≤ m := by
  induction runes with
  | nil => intro acc h; exact h
  | cons r rest ih =>
    intro acc h
    rw [runesTake]
    by_cases hm : acc.length + runeLen r > m
    · rw [if_pos hm]
      exact h
    · rw [if_neg hm]
      exact ih _ (by rw [List.length_append, utf8Encode_length]; omega)

/-- Whatever the input, the truncation result never exceeds the byte budget. -/
theorem truncateUTF8Safe_length_le (s : List Nat) (m : Nat) (hm : m < s.length) :
    (truncateUTF8Safe s m).length ≤ m := by
  unfold truncateUTF8Safe
  rw [if_neg (by omega)]
  show (if utf8ValidB (List.take (backUp s m) s) = true then List.take (backUp s m) s
      else runesTake (goRunes s) m []).length ≤ m
  split_ifs
  · have := backUp_le s m
    rw [List.length_take]
    omega
  · exact runesTake_length_le _ _ [] (by simp)

theorem isHex_hexDigit : ∀ n, n < 16 → IsHex (hexDigit n) := by
  intro n hn
  unfold IsHex hexDigit
  split_ifs <;> omega

/-- The escaped bytes of any byte string form admissible JSON string
characters. -/
theorem jStrChars_escape (s : List Nat) : JStrChars ((s.map escByte).flatten) := by
  induction s with
  | nil => exact JStrChars.nil
  | cons b t ih =>
    simp only [List.map_cons, List.flatten_cons]
    unfold escByte
    split_ifs with h1 h2 h3 h4 h5 h6
    · exact JStrChars.esc 0x22 _ (by decide) ih
    · exact JStrChars.esc 0x5C _ (by decide) ih
    · exact JStrChars.esc 0x6E _ (by decide) ih
    · exact JStrChars.esc 0x72 _ (by decide) ih
    · exact JStrChars.esc 0x74 _ (by decide) ih
    · have h16a : b / 16 < 16 := by
        rcases h6 with h | h | h | h <;> omega
      have h16b : b % 16 < 16 := Nat.mod_lt _ (by norm_num)
      exact JStrChars.uesc 0x30 0x30 (hexDigit (b / 16)) (hexDigit (b % 16)) _
        (by unfold IsHex; omega) (by unfold IsHex; omega)
        (isHex_hexDigit _ h16a) (isHex_hexDigit _ h16b) ih
    · exact JStrChars.plain b _ (by omega) h1 h2 ih

theorem jString_renderString (s : List Nat) : JString (renderString s) :=
  ⟨(s.map escByte).flatten, jStrChars_escape s, rfl⟩

theorem jPair_member (k v : List Nat) :
    JPair (renderString k ++ [0x3A] ++ renderString v) :=
  ⟨renderString k, renderString v, jString_renderString k, jString_renderString v, rfl⟩

theorem jObject_renderMsg (m : List Nat × List Nat) : JObject (renderMsg m) := by
  refine ⟨(renderString contentKeyBytes ++ [0x3A] ++ renderString m.2) ++ [0x2C] ++
    (renderString roleKeyBytes ++ [0x3A] ++ renderString m.1), ?_, ?_⟩
  · exact JMembers.more _ _ (jPair_member _ _) (JMembers.one _ (jPair_member _ _))
  · simp [renderMsg, List.append_assoc]

theorem jElems_sep (ms : List (List Nat × List Nat)) (h : ms ≠ []) :
    JElems (sepByComma (ms.map renderMsg)) := by
  induction ms with
  | nil => exact absurd rfl h
  | cons m rest ih =>
    cases rest with
    | nil => exact JElems.one _ (jObject_renderMsg m)
    | cons m2 rest2 =>
      exact JElems.more _ _ (jObject_renderMsg m) (ih (by simp))

theorem jArr_renderMessages (ms : List (List Nat × List Nat)) (h : ms ≠ []) :
    JArr (renderMessages ms) :=
  ⟨sepByComma (ms.map renderMsg), jElems_sep ms h, rfl⟩

/-- The accumulation loop appends exactly one message per non-nil content. -/
theorem buildMessages_go (contents : List (Option Content)) :
    ∀ acc : List (List Nat × List Nat) × Bool,
      (contents.foldl buildMessagesStep acc).1 =
        acc.1 ++ (contents.filterMap id).map truncMsg := by
  induction contents with
  | nil => intro acc; simp
  | cons oc rest ih =>
    intro acc
    cases oc with
    | none =>
      simp only [List.foldl_cons, List.filterMap_cons]
      exact ih acc
    | some c =>
      simp only [List.foldl_cons, List.filterMap_cons]
      show (List.foldl buildMessagesStep (buildMessagesStep acc (some c)) rest).1 = _
      rw [ih]
      unfold buildMessagesStep
      by_cases hc : (extractContentText (some c)).length > MaxPromptLength / 2 <;>
        simp [hc, List.append_assoc]

theorem buildMessages_fst (contents : List (Option Content)) (flag0 : Bool) :
    (buildMessages contents flag0).1 = (contents.filterMap id).map truncMsg := by
  have h := buildMessages_go contents ([], flag0)
  simpa [buildMessages] using h

/-- C5: each message is truncated individually (to at most half the 50,000-byte
limit, the marker appended when it was over) before serialization, and the
serialized array is the JSON rendering of exactly those per-message-truncated
messages, with no further truncation pass; whenever at least one non-nil
content is present the resulting `InputMessages` is a valid JSON array.  This
fails for the empty message list: there `InputMessages` is the empty string,
which is not valid JSON. -/
theorem extractPrompts_inputMessages (contents : List (Option Content))
    (config : Option GenConfig) :
    (∀ c : Content, (truncMsg c).2.length ≤ MaxPromptLength / 2) ∧
    (∀ c : Content, (extractContentText (some c)).length > MaxPromptLength / 2 →
      ∃ pre, (truncMsg c).2 = pre ++ markerBytes) ∧
    (∀ c : Content, (extractContentText (some c)).length ≤ MaxPromptLength / 2 →
      (truncMsg c).2 = extractContentText (some c)) ∧
    (contents.filterMap id ≠ [] →
      (ExtractPromptsFromRequest contents config).inputMessages =
        renderMessages ((contents.filterMap id).map truncMsg) ∧
      JArr (ExtractPromptsFromRequest contents config).inputMessages) ∧
    (contents.filterMap id = [] →
      (ExtractPromptsFromRequest contents config).inputMessages = []) := by
  have hmk : markerBytes.length = 14 := by decide
  have hhalf : MaxPromptLength / 2 = 25000 := by decide
  have hfst := buildMessages_fst contents (extractSystemPrompt config).2
  have hunf : (ExtractPromptsFromRequest contents config).inputMessages =
      if (buildMessages contents (extractSystemPrompt config).2).1 = [] then []
      else renderMessages (buildMessages contents (extractSystemPrompt config).2).1 := rfl
  refine ⟨?_, ?_, ?_, ?_, ?_⟩
  · intro c
    unfold truncMsg
    by_cases hc : (extractContentText (some c)).length > MaxPromptLength / 2
    · rw [if_pos hc]
      simp only [List.length_append, hmk]
      have hle := truncateUTF8Safe_length_le (extractContentText (some c))
        (MaxPromptLength / 2 - markerBytes.length) (by rw [hmk, hhalf]; omega)
      rw [hmk] at hle
      rw [hhalf] at hle ⊢
      omega
    · rw [if_neg hc]
      dsimp only
      omega
  · intro c hc
    unfold truncMsg
    rw [if_pos hc]
    exact ⟨_, rfl⟩
  · intro c hc
    unfold truncMsg
    rw [if_neg (by omega)]
  · intro hne
    have hmsne : (buildMessages contents (extractSystemPrompt config).2).1 ≠ [] := by
      rw [hfst]
      simpa using hne
    rw [hunf, if_neg hmsne, hfst]
    exact ⟨rfl, jArr_renderMessages _ (by simpa using hne)⟩
  · intro hnil
    rw [hunf, if_pos (by rw [hfst, hnil]; rfl)]

/-- C5 counterexample: for the empty content list (and in fact whenever every
content is nil) the produced `InputMessages` is the empty byte string, which is
not a JSON array — so "the resulting InputMessages string always parses as
valid JSON" fails as stated. -/
theorem extractPrompts_empty_not_json_cex :
    (ExtractPromptsFromRequest [] none).inputMessages = [] ∧
    ¬ JArr (ExtractPromptsFromRequest [] none).inputMessages := by
  have h : (ExtractPromptsFromRequest [] none).inputMessages = [] := rfl
  refine ⟨h, ?_⟩
  rw [h]
  rintro ⟨inner, -, heq⟩
  exact List.noConfusion heq

theorem extractPrompts_inputMessages_witness :
    (25001 > MaxPromptLength / 2 ∧
      (extractContentText (some bigMsgContent)).length = 25001) ∧
    (truncMsg bigMsgContent).2 =
      List.replicate 24986 97 ++ markerBytes ∧
    (truncMsg bigMsgContent).2.length = 25000 ∧
    JArr (ExtractPromptsFromRequest [some bigMsgContent] none).inputMessages := by
  have hronil : List.replicate 25001 (97 : Nat) ≠ [] := by
    intro h
    have hl := congrArg List.length h
    rw [List.length_replicate] at hl
    simp at hl
  have htext : extractContentText (some bigMsgContent) = List.replicate 25001 97 := by
    show (if (some (⟨List.replicate 25001 97, none, none⟩ : Part) :: []) =
        ([] : List (Option Part)) then ([] : List Nat) else _) = _
    rw [if_neg (List.cons_ne_nil _ _)]
    show (if List.replicate 25001 (97 : Nat) = [] then ([] : List Nat)
        else if ([] : List Nat) = [] then List.replicate 25001 97
        else [] ++ [10] ++ List.replicate 25001 97) = _
    rw [if_neg hronil, if_pos rfl]
  have hlen : (extractContentText (some bigMsgContent)).length = 25001 := by
    rw [htext, List.length_replicate]
  have hgt : (extractContentText (some bigMsgContent)).length > MaxPromptLength / 2 := by
    rw [hlen]; decide
  have hback : backUp (List.replicate 25001 (97 : Nat)) 24986 = 24986 := by
    show backUp (List.replicate 25001 97) (24985 + 1) = 24986
    rw [backUp]
    rw [dif_pos (by rw [List.length_replicate]; omega)]
    have hget : (List.replicate 25001 (97 : Nat)).get
        ⟨24985 + 1, by rw [List.length_replicate]; omega⟩ = 97 := by
      rw [List.get_eq_getElem, List.getElem_replicate]
    rw [hget]
    rw [if_neg (by decide)]
  have htake : List.take 24986 (List.replicate 25001 (97 : Nat)) =
      List.replicate 24986 97 := by
    rw [List.take_replicate]
    norm_num
  have htrunc : truncateUTF8Safe (List.replicate 25001 (97 : Nat)) 24986 =
      List.replicate 24986 97 := by
    unfold truncateUTF8Safe
    rw [if_neg (by rw [List.length_replicate]; decide)]
    show (if utf8ValidB (List.take (backUp (List.replicate 25001 97) 24986)
        (List.replicate 25001 97)) = true
      then List.take (backUp (List.replicate 25001 97) 24986) (List.replicate 25001 97)
      else runesTake (goRunes (List.replicate 25001 97)) 24986 []) = _
    rw [hback, htake]
    rw [if_pos (utf8ValidB_of_utf8V _
      (utf8V_ascii _ (fun b hb => by
        have := List.eq_of_mem_replicate hb
        omega)))]
  have key : ∀ c : Content, (extractContentText (some c)).length > MaxPromptLength / 2 →
      (truncMsg c).2 = truncateUTF8Safe (extractContentText (some c))
        (MaxPromptLength / 2 - markerBytes.length) ++ markerBytes := by
    intro c hc
    unfold truncMsg
    rw [if_pos hc]
  have hmsg : (truncMsg bigMsgContent).2 = List.replicate 24986 97 ++ markerBytes := by
    rw [key bigMsgContent hgt, htext,
      show MaxPromptLength / 2 - markerBytes.length = 24986 from by decide, htrunc]
  refine ⟨⟨by decide, hlen⟩, hmsg, ?_, ?_⟩
  · rw [hmsg, List.length_append, List.length_replicate]
    rfl
  · exact ((extractPrompts_inputMessages [some bigMsgContent] none).2.2.2.1
      (by simp)).2

end Revenium
